import Mathlib

/-! # PIC 33F bootloader host program (`Loader.cpp`)

A shallow embedding of `main` of `Loader.cpp`.  The program is a straight line of
blocks, each guarded by the flag `bOK`; every block is embedded as a function on the
record `Prog` of the variables of `main` that the block reads or writes, and `main`
is their composition.

* Bytes, addresses and counters are natural numbers; every assignment to an
  `unsigned char` variable reduces modulo 256.
* The memory map `nMap` is a function from byte addresses to byte values.
* The HEX file is the list of its characters.  `ReadFile` of `k` characters followed
  by `sscanf_s` with `%kx` is `readField k`.  The embedding covers the files whose
  fields are written as `k` hexadecimal digits: for other text (a blank, a sign, any
  other character, the end of the file) what `sscanf_s` stores depends on the C
  library and on what the buffer `c` or the variable held before, which the source
  never sets, and the embedding gives no result (`none`).
* The serial port is the list `tx` of the bytes written so far and the list `rx` of
  the outcomes of the reads still to come, `none` standing for a read that times out
  (`dwCount = 0`, the destination variable untouched).
* Command line handling and the opening of the file and of the port lie outside the
  embedding: they are taken to succeed.
-/

namespace Loader

/-! ## Data model -/

/-- The memory map `nMap`, from byte address to byte value. -/
abbrev Image := Nat → Nat

/-- The map after the initialisation loop of lines 133-134. -/
def erased : Image := fun _ => 0xFF

/-- The assignment `nMap[a] = v` to a cell of type `unsigned char`. -/
def setByte (m : Image) (a v : Nat) : Image :=
  fun j => if j = a then v % 256 else m j

/-- The diagnostics that `main` prints and that matter here, one constructor for each
`printf`. -/
inductive Msg where
  | formatError
  | extendedSegment
  | ignoringFuse
  | checksumError
  | processed (nRecord : Nat)
  | overlap
  | resetVector
  | findOk
  | findError
  | headerChecksum (tx rx : Nat)
  | pageChecksum (word tx rx : Nat)
  | doneFlag (word : Nat)
  | successful
  deriving DecidableEq, Repr

/-- The variables of `main` that survive from one block to the next, with the serial
port. -/
structure Prog where
  /-- The flag `bOK`. -/
  bOK : Bool
  /-- The memory map `nMap`. -/
  nMap : Image
  /-- The diagnostics printed so far, oldest first. -/
  log : List Msg
  /-- The bytes written to the port so far, oldest first. -/
  tx : List Nat
  /-- The outcomes of the reads from the port still to come. -/
  rx : List (Option Nat)
  /-- The variable `nData`. -/
  nData : Nat
  /-- The variable `nChecksum`. -/
  nChecksum : Nat
  /-- The variable `nRetryCount`. -/
  nRetryCount : Nat
  /-- The part of the HEX file not read yet (the position of `hFile`). -/
  hFile : List Char
  /-- The variable `nAddrH`. -/
  nAddrH : Nat
  /-- The flag `bEOF`. -/
  bEOF : Bool
  /-- The counter `nRecord`. -/
  nRecord : Nat

/-! ## Reading the HEX file (lines 129-215) -/

/-- The value of one hexadecimal digit as `%x` reads it, either case. -/
def hexDigit (c : Char) : Option Nat :=
  let n := c.toNat
  if 48 ≤ n ∧ n ≤ 57 then some (n - 48)
  else if 65 ≤ n ∧ n ≤ 70 then some (n - 55)
  else if 97 ≤ n ∧ n ≤ 102 then some (n - 87)
  else none

/-- The number written by a run of hexadecimal digits, most significant first, on top
of the digits `acc` already read. -/
def hexValue : List Char → Nat → Option Nat
  | [], acc => some acc
  | c :: cs, acc =>
    match hexDigit c with
    | none => none
    | some d => hexValue cs (16 * acc + d)

/-- The pair `ReadFile(hFile, &c, k, ...)`, `sscanf_s(c, "%kx", &v)`: the value `v`
and the rest of the file.  No result when fewer than `k` characters are left or one
of them is no hexadecimal digit. -/
def readField (k : Nat) (inp : List Char) : Option (Nat × List Char) :=
  if inp.length < k then none
  else
    match hexValue (inp.take k) 0 with
    | none => none
    | some v => some (v, inp.drop k)

/-- Lines 144-153: characters are read one at a time, line feeds and carriage returns
are passed over, and the first other character decides `bOK = bColon = (c == ':')`.
No result when the file ends first. -/
def scanColon : List Char → Option (Bool × List Char)
  | [] => none
  | c :: cs =>
    if c.toNat ≠ 10 ∧ c.toNat ≠ 13 then some (c == ':', cs)
    else scanColon cs

/-- Lines 173-184, the payload loop of a data record, with `k` iterations to go:
the file, the map, `nAddrH`, `nAddrL` and `nChecksum` go in; the map, `nChecksum`
and the file come out. -/
def dataLoop : Nat → List Char → Image → Nat → Nat → Nat →
    Option (Image × Nat × List Char)
  | 0, inp, m, _, _, ck => some (m, ck, inp)
  | k + 1, inp, m, nAddrH, nAddrL, ck =>
    match readField 2 inp with
    | none => none
    | some (temp, rest) =>
      let nAddr := (nAddrH <<< 16) ||| nAddrL
      let m1 := if nAddrH < 0x8000 then setByte m nAddr temp else m
      dataLoop k rest m1 nAddrH (nAddrL + 1) ((ck + temp) % 256)

/-- Lines 205-211: the received checksum is read and compared; `ck` is `nChecksum`
after the `switch`. -/
def checkStep (s : Prog) (ck : Nat) (inp : List Char) : Option Prog :=
  match readField 2 inp with
  | none => none
  | some (nRxCheck, rest) =>
    let nChecksum := (256 - ck) % 256
    if nRxCheck == nChecksum then
      some { s with bOK := true, nChecksum := nChecksum, hFile := rest }
    else
      some { s with bOK := false, nChecksum := nChecksum, hFile := rest,
                    log := s.log ++ [Msg.checksumError] }

/-- Lines 170-204: the `switch` on the record type; `inp` is the file after the type
field and `ck` the checksum so far.  The program, `nChecksum` and the file come out. -/
def switchStep (s : Prog) (nSize nAddrL nType ck : Nat) (inp : List Char) :
    Option (Prog × Nat × List Char) :=
  if nType = 0 then
    match dataLoop nSize inp s.nMap s.nAddrH nAddrL ck with
    | none => none
    | some (m, ck1, rest) => some ({ s with nMap := m }, ck1, rest)
  else if nType = 1 then
    some ({ s with bEOF := true }, ck, inp)
  else if nType = 2 then
    some ({ s with bOK := false, log := s.log ++ [Msg.extendedSegment] }, ck, inp)
  else if nType = 4 then
    match readField 4 inp with
    | none => none
    | some (nAddrH, rest) =>
      let ck1 := (ck + (nAddrH &&& 0xff)) % 256
      let ck2 := (ck1 + ((nAddrH >>> 8) &&& 0xff)) % 256
      let s1 := { s with nAddrH := nAddrH }
      some (if nAddrH ≥ 0x8000 then { s1 with log := s1.log ++ [Msg.ignoringFuse] } else s1,
            ck2, rest)
  else
    some ({ s with bEOF := true }, ck, inp)

/-- Lines 158-211: one record, the colon already read; `inp` is the file after it. -/
def decodeRecord (s : Prog) (inp : List Char) : Option Prog :=
  match readField 2 inp with
  | none => none
  | some (nSize, r1) =>
    match readField 4 r1 with
    | none => none
    | some (nAddrL, r2) =>
      match readField 2 r2 with
      | none => none
      | some (nType, r3) =>
        let ck0 := nSize % 256
        let ck1 := (ck0 + (nAddrL &&& 0xff)) % 256
        let ck2 := (ck1 + ((nAddrL >>> 8) &&& 0xff)) % 256
        let ck3 := (ck2 + nType) % 256
        match switchStep { s with nRecord := s.nRecord + 1 } nSize nAddrL nType ck3 r3 with
        | none => none
        | some (s1, ck, r4) => checkStep s1 ck r4

/-- Lines 143-212: the body of the loop over the records. -/
def recordStep (s : Prog) : Option Prog :=
  match scanColon s.hFile with
  | none => none
  | some (bColon, rest) =>
    if bColon then decodeRecord s rest
    else some { s with bOK := false, hFile := rest, log := s.log ++ [Msg.formatError] }

/-- Line 142: `while (bOK && !bEOF)`, with `fuel` bounding the number of records. -/
def parseLoop : Nat → Prog → Option Prog
  | 0, s => if s.bOK && !s.bEOF then none else some s
  | fuel + 1, s =>
    if s.bOK && !s.bEOF then
      match recordStep s with
      | none => none
      | some s1 => parseLoop fuel s1
    else some s

/-- Lines 129-215: the map is erased, the records are read (every record takes at
least one character, so the length of the file bounds their number) and their count
is reported. -/
def loadStage (s : Prog) : Option Prog :=
  if s.bOK then
    match parseLoop (s.hFile.length + 1) { s with nMap := erased } with
    | none => none
    | some s1 =>
      some (if s1.bOK then { s1 with log := s1.log ++ [Msg.processed s1.nRecord] } else s1)
  else some s

/-! ## Validation and patch (lines 221-247) -/

/-- The loop of lines 226-227, started with `bOK` true:
`for (i = 0x800; i < 0x1000; i++) bOK &= nMap[i] == 0xFF`. -/
def overlapCheck (m : Image) : Bool :=
  (List.range' 0x800 0x800).foldl (fun bOK i => bOK && (m i == 0xFF)) true

/-- The condition assigned to `bOK` at lines 238-239. -/
def resetCheck (m : Image) : Bool :=
  (m 0 == 0) && (m 1 == 0x08) && (m 2 == 0x04)
    && (m 4 == 0x00) && (m 5 == 0x00) && (m 6 == 0x00)

/-- Lines 224-230: the bootloader overlap check. -/
def overlapStage (s : Prog) : Prog :=
  if s.bOK then
    if overlapCheck s.nMap then s
    else { s with bOK := false, log := s.log ++ [Msg.overlap] }
  else s

/-- Lines 236-242: the reset vector check. -/
def resetStage (s : Prog) : Prog :=
  if s.bOK then
    if resetCheck s.nMap then s
    else { s with bOK := false, log := s.log ++ [Msg.resetVector] }
  else s

/-- Lines 244-247: the first instruction is redirected to the bootloader. -/
def patchStage (s : Prog) : Prog :=
  if s.bOK then { s with nMap := setByte s.nMap 1 0x04 } else s

/-- Lines 221-247 in sequence. -/
def validatePatch (s : Prog) : Prog :=
  patchStage (resetStage (overlapStage s))


/-! ## The serial port -/

/-- The call `WriteFile(hPort, &b, 1, ...)` for each byte of `bs` in turn. -/
def writePort (s : Prog) (bs : List Nat) : Prog :=
  { s with tx := s.tx ++ bs }

/-- The call `ReadFile(hPort, &nData, 1, &dwCount, NULL)`: the program after it, and
`dwCount`.  A read that times out leaves `nData` as it was. -/
def readPort (s : Prog) : Prog × Nat :=
  match s.rx with
  | [] => (s, 0)
  | none :: rs => ({ s with rx := rs }, 0)
  | some b :: rs => ({ s with rx := rs, nData := b }, 1)

/-! ## Finding the target device (lines 303-324) -/

/-- Lines 311-318, one round: the keyphrase `33F` is written, one byte is read, and
`bOK = (dwCount != 0) && (nData == 'k')`. -/
def findRound (s : Prog) : Prog :=
  let r := readPort (writePort s [0x33, 0x33, 0x46])
  { r.1 with bOK := (r.2 != 0) && (r.1.nData == 0x6B),
             nRetryCount := r.1.nRetryCount + 1 }

/-- Lines 309-319: `while ((nRetryCount < 30) && !bOK)`, with `fuel` bounding the
number of rounds. -/
def findLoop : Nat → Prog → Prog
  | 0, s => s
  | fuel + 1, s =>
    if s.nRetryCount < 30 && !s.bOK then findLoop fuel (findRound s)
    else s

/-- Lines 304-324. -/
def findStage (s : Prog) : Prog :=
  if s.bOK then
    let s1 := findLoop 30 { s with bOK := false }
    if s1.bOK then { s1 with log := s1.log ++ [Msg.findOk] }
    else { s1 with log := s1.log ++ [Msg.findError] }
  else s

/-! ## Header and pages (lines 326-416) -/

/-- Lines 329-334: the highest address whose byte is not `0xFF`, or 0. -/
def maxAddr (m : Image) : Nat :=
  (List.range 1048576).foldl (fun nMaxAddr i => if m i != 0xFF then i else nMaxAddr) 0

/-- Lines 342-363: the page count is sent with its checksum and the echo compared. -/
def headerStep (s : Prog) (nPages : Nat) : Prog :=
  let lo := nPages &&& 0xff
  let s1 := writePort { s with nData := lo, nChecksum := lo } [lo]
  let hi := (nPages >>> 8) &&& 0xff
  let s2 := writePort { s1 with nData := hi, nChecksum := (s1.nChecksum + hi) % 256 } [hi]
  let s3 := writePort s2 [s2.nChecksum]
  let s4 := (readPort s3).1
  if s4.nData != s4.nChecksum then
    { s4 with bOK := false, log := s4.log ++ [Msg.headerChecksum s4.nChecksum s4.nData] }
  else s4

/-- Lines 386-394: the 2048 positions of a page; the byte is sent and summed unless
`(i & 3) == 3`, and `nAddr` moves on either way. -/
def pageData (s : Prog) (nAddr : Nat) : Prog × Nat :=
  (List.range 2048).foldl
    (fun (st : Prog × Nat) i =>
      if (i &&& 3) != 3 then
        (writePort { st.1 with nChecksum := (st.1.nChecksum + st.1.nMap st.2) % 256 }
            [st.1.nMap st.2], st.2 + 1)
      else (st.1, st.2 + 1))
    (s, nAddr)

/-- Lines 369-384: the starting word address of the page is sent, low byte first, and
the checksum started. -/
def pageAddress (s : Prog) (nAddr : Nat) : Prog :=
  let d0 := (nAddr >>> 1) &&& 0xff
  let s1 := writePort { s with nData := d0, nChecksum := d0 } [d0]
  let d1 := (nAddr >>> 9) &&& 0xff
  let s2 := writePort { s1 with nData := d1, nChecksum := (s1.nChecksum + d1) % 256 } [d1]
  let d2 := (nAddr >>> 17) &&& 0xff
  writePort { s2 with nData := d2, nChecksum := (s2.nChecksum + d2) % 256 } [d2]

/-- Lines 395-403: the checksum is sent, one byte read back and compared with it;
`nAddr` is the address after the page. -/
def echoCheck (s : Prog) (nAddr : Nat) : Prog :=
  let s1 := (readPort (writePort s [s.nChecksum])).1
  if s1.nData != s1.nChecksum then
    { s1 with bOK := false,
              log := s1.log ++ [Msg.pageChecksum ((nAddr - 2048) / 2) s1.nChecksum s1.nData] }
  else s1

/-- Lines 406-412: one more byte is read and compared with `'d'`. -/
def doneCheck (s : Prog) (nAddr : Nat) : Prog :=
  let s1 := (readPort s).1
  if s1.nData != 0x64 then
    { s1 with bOK := false, log := s1.log ++ [Msg.doneFlag ((nAddr - 2048) / 2)] }
  else s1

/-- Line 405: `if (nAddr == 2048) nAddr = 4096`. -/
def skipBootloader (nAddr : Nat) : Nat :=
  if nAddr == 2048 then 4096 else nAddr

/-- Lines 369-413: one page; the program and `nAddr` after it. -/
def pageStep (s : Prog) (nAddr : Nat) : Prog × Nat :=
  let st := pageData (pageAddress s nAddr) nAddr
  let s1 := echoCheck st.1 st.2
  (doneCheck s1 (skipBootloader st.2), skipBootloader st.2)

/-- Line 367: `while (bOK && (nPage < nPages))`, with `nPages - nPage` pages to go. -/
def pageLoop : Nat → Prog → Nat → Prog
  | 0, s, _ => s
  | togo + 1, s, nAddr =>
    if s.bOK then pageLoop togo (pageStep s nAddr).1 (pageStep s nAddr).2
    else s

/-- Lines 327-416. -/
def transferStage (s : Prog) : Prog :=
  if s.bOK then
    let nPages := maxAddr s.nMap / 2048
    pageLoop nPages (headerStep s nPages) 0
  else s

/-- Lines 423-435. -/
def finishStage (s : Prog) : Prog :=
  if s.bOK then { s with log := s.log ++ [Msg.successful] } else s

/-! ## The program -/

/-- The variables when the file has been opened: `bOK` is true, `bEOF` false, the
counters are 0, nothing has been printed or written.  `nAddrH` is declared without
an initial value (line 58); what it holds is the parameter `nAddrH0`.  `file` is the
text of the HEX file and `replies` the outcomes of the reads from the port. -/
def start (nAddrH0 : Nat) (file : List Char) (replies : List (Option Nat)) : Prog :=
  { bOK := true, nMap := erased, log := [], tx := [], rx := replies, nData := 0,
    nChecksum := 0, nRetryCount := 0, hFile := file, nAddrH := nAddrH0, bEOF := false,
    nRecord := 0 }

/-- Lines 129-435 of `main`. -/
def run (nAddrH0 : Nat) (file : List Char) (replies : List (Option Nat)) : Option Prog :=
  match loadStage (start nAddrH0 file replies) with
  | none => none
  | some s => some (finishStage (transferStage (findStage (validatePatch s))))

/-! ## Inputs of the examples -/

/-- The image of the accepted examples: the erased map with the reset vector
`00 08 04 .. 00 00 00` at the addresses 0, 1, 2 and 4, 5, 6. -/
def vectorImage : Image :=
  fun j => if j = 0 then 0x00 else if j = 1 then 0x08 else if j = 2 then 0x04
    else if j = 4 then 0x00 else if j = 5 then 0x00 else if j = 6 then 0x00 else 0xFF

/-- The program at the start of validation with the image `vectorImage`. -/
def vectorProg : Prog :=
  { start 0 [] [] with nMap := vectorImage }

/-! ## The text of a record -/

/-- The value of a field written as exactly `k` hexadecimal digits. -/
def fieldValue (k : Nat) (f : List Char) : Option Nat :=
  if f.length = k then hexValue f 0 else none

/-- The bytes of a payload written as two-digit fields one after the other. -/
def fieldBytes : List Char → Option (List Nat)
  | [] => some []
  | [_] => none
  | a :: b :: rest =>
    match hexValue [a, b] 0, fieldBytes rest with
    | some v, some vs => some (v :: vs)
    | _, _ => none

/-- The map after the payload bytes `bs` of a data record have been stored, as the
loop of lines 173-184 stores them. -/
def storeBytes (m : Image) (nAddrH : Nat) : Nat → List Nat → Image
  | _, [] => m
  | nAddrL, b :: bs =>
    storeBytes (if nAddrH < 0x8000 then setByte m ((nAddrH <<< 16) ||| nAddrL) b else m)
      nAddrH (nAddrL + 1) bs

/-- The checksum `ck` after the bytes `bs` have been added to it one at a time. -/
def sumBytes (ck : Nat) : List Nat → Nat
  | [] => ck
  | b :: bs => sumBytes ((ck + b) % 256) bs

/-! ## The frame of a page, as the wire protocol describes it -/

/-- The three address bytes of the page that starts at byte address `a`. -/
def addressBytes (a : Nat) : List Nat :=
  [(a >>> 1) &&& 0xff, (a >>> 9) &&& 0xff, (a >>> 17) &&& 0xff]

/-- The data bytes of the page that starts at byte address `a`: the bytes of the map at
`a + i` for `i` from 0 to 2047 in increasing order, those with `i mod 4 = 3` left
out. -/
def pageBytes (m : Image) (a : Nat) : List Nat :=
  ((List.range 2048).filter (fun i => i % 4 ≠ 3)).map (fun i => m (a + i))

/-- The frame of a page: address bytes, data bytes, and the sum of both modulo 256. -/
def pageFrame (m : Image) (a : Nat) : List Nat :=
  addressBytes a ++ pageBytes m a ++ [((addressBytes a).sum + (pageBytes m a).sum) % 256]

/-- The byte address at which page number `k` of a transfer starts. -/
def pageAddr (k : Nat) : Nat :=
  if k = 0 then 0 else 2048 * (k + 1)

/-- A file whose second record, read with `nAddrH = 1`, holds two bytes for the
address field 0xFFFF. -/
def crossingFile : List Char :=
  ":020000040001F9\n:02FFFF001122CD\n:00000001FF\n".toList

/-- A file that is accepted: the upper address 0, the reset vector at the addresses
0 to 6, the byte 0xEE at address 0x1000, end of file. -/
def acceptedFile : List Char :=
  ":020000040000FA\n:0700000000080400000000ED\n:01100000EE01\n:00000001FF\n".toList

/-- The file `acceptedFile` with the type byte of its third record changed from 00 to
01. -/
def corruptedFile : List Char :=
  ":020000040000FA\n:0700000000080400000000ED\n:01100001EE01\n:00000001FF\n".toList

/-- The file `acceptedFile` with the third record replaced by one that writes 0x00 at
address 0x800. -/
def rejectedFile : List Char :=
  ":020000040000FA\n:0700000000080400000000ED\n:0108000000F7\n:00000001FF\n".toList

/-- The map after the seven bytes `00 08 04 00 00 00 00` have been stored from address
0 on with `nAddrH = 0`. -/
def resetImage : Image :=
  storeBytes erased 0 0 [0x00, 0x08, 0x04, 0x00, 0x00, 0x00, 0x00]

/-- A file with a record of type 02 (byte count 0, checksum FE) between the reset
vector and the end of the file. -/
def segmentFile : List Char :=
  ":020000040000FA\n:0700000000080400000000ED\n:00000002FE\n:00000001FF\n".toList

/-- The two-record file of the end-to-end scenario: the six bytes `00 08 04 00 00 00`
for address 0, then the end of the file. -/
def sixFile : List Char :=
  ":06000000000804000000EE\n:00000001FF\n".toList

/-- The file `sixFile` with a seventh payload byte `00`, for address 6. -/
def sevenFile : List Char :=
  ":0700000000080400000000ED\n:00000001FF\n".toList

/-- A file that is accepted: the upper address 0, the reset vector at the addresses
0 to 6, end of file. -/
def vectorFile : List Char :=
  ":020000040000FA\n:0700000000080400000000ED\n:00000001FF\n".toList

/-- The file `vectorFile` with a record of type 05 (start linear address, four payload
bytes, checksum EF correct for the whole record) before the end of the file. -/
def startLinearFile : List Char :=
  ":020000040000FA\n:0700000000080400000000ED\n:0400000500000800EF\n:00000001FF\n".toList

/-- A file that sets the upper address 0x0010 and then holds one data byte for the
address field 0. -/
def beyondFile : List Char :=
  ":020000040010EA\n:0100000000FF\n:00000001FF\n".toList

/-- The checksum byte of the frame of the page that starts at `a`. -/
def frameSum (m : Image) (a : Nat) : Nat :=
  ((addressBytes a).sum + (pageBytes m a).sum) % 256

/-- The replies of a device that echoes the checksum of each of the `n` pages from
page `k` on and answers `'d'` after each. -/
def pageReplies (m : Image) : Nat → Nat → List (Option Nat)
  | _, 0 => []
  | k, n + 1 => some (frameSum m (pageAddr k)) :: some 0x64 :: pageReplies m (k + 1) n

/-- The replies of a device that echoes the checksum of the header for `n` pages and
then those of the pages, answering `'d'` after each page. -/
def goodReplies (m : Image) (n : Nat) : List (Option Nat) :=
  some ((n % 256 + n / 256 % 256) % 256) :: pageReplies m 0 n

/-- The image `vectorImage` with the byte 0xEE at address 0x1000. -/
def twoPageImage : Image :=
  fun j => if j = 0x1000 then 0xEE else vectorImage j

/-- The program at the start of the transfer of `twoPageImage`, with a device that
echoes every checksum and answers `'d'` after every page. -/
def twoPageProg : Prog :=
  { start 0 [] (goodReplies twoPageImage 2) with nMap := twoPageImage }

/-- The program at the start of the transfer of the erased map with the byte 0x00 at
address 4095. -/
def lastByteProg : Prog :=
  { start 0 [] [] with nMap := setByte erased 4095 0x00 }

/-! ## Lemmas on validation -/

theorem foldl_and_true {α : Type} (p : α → Bool) (l : List α) (b : Bool) :
    l.foldl (fun acc i => acc && p i) b = true ↔ b = true ∧ ∀ i ∈ l, p i = true := by
  induction l generalizing b with
  | nil => simp
  | cons x xs ih =>
    simp only [List.foldl_cons, ih, Bool.and_eq_true, List.mem_cons, forall_eq_or_imp]
    tauto

theorem overlapCheck_iff (m : Image) :
    overlapCheck m = true ↔ ∀ a, 0x800 ≤ a → a ≤ 0xFFF → m a = 0xFF := by
  unfold overlapCheck
  rw [foldl_and_true]
  simp only [true_and, List.mem_range'_1, beq_iff_eq]
  constructor
  · intro h a h1 h2
    exact h a ⟨h1, by omega⟩
  · intro h a ha
    exact h a ha.1 (by omega)

theorem resetCheck_iff (m : Image) :
    resetCheck m = true ↔
      m 0 = 0x00 ∧ m 1 = 0x08 ∧ m 2 = 0x04 ∧ m 4 = 0x00 ∧ m 5 = 0x00 ∧ m 6 = 0x00 := by
  simp only [resetCheck, Bool.and_eq_true, beq_iff_eq]
  tauto

theorem validatePatch_pass (s : Prog) (hok : s.bOK = true)
    (ho : overlapCheck s.nMap = true) (hr : resetCheck s.nMap = true) :
    validatePatch s = { s with nMap := setByte s.nMap 1 0x04 } := by
  simp [validatePatch, patchStage, resetStage, overlapStage, hok, ho, hr]

theorem validatePatch_overlap (s : Prog) (hok : s.bOK = true)
    (ho : overlapCheck s.nMap = false) :
    validatePatch s = { s with bOK := false, log := s.log ++ [Msg.overlap] } := by
  simp [validatePatch, patchStage, resetStage, overlapStage, hok, ho]

theorem validatePatch_reset (s : Prog) (hok : s.bOK = true)
    (ho : overlapCheck s.nMap = true) (hr : resetCheck s.nMap = false) :
    validatePatch s = { s with bOK := false, log := s.log ++ [Msg.resetVector] } := by
  simp [validatePatch, patchStage, resetStage, overlapStage, hok, ho, hr]

theorem validatePatch_bOK (s : Prog) (hok : s.bOK = true) :
    (validatePatch s).bOK = (overlapCheck s.nMap && resetCheck s.nMap) := by
  cases ho : overlapCheck s.nMap
  · rw [validatePatch_overlap s hok ho]; rfl
  · cases hr : resetCheck s.nMap
    · rw [validatePatch_reset s hok ho hr]; rfl
    · rw [validatePatch_pass s hok ho hr]; simpa using hok

theorem validatePatch_not_ok (s : Prog) (hok : s.bOK = false) : validatePatch s = s := by
  simp [validatePatch, patchStage, resetStage, overlapStage, hok]

/-! ## Claims on validation -/

/-- C1: with `bOK` true on entry, the overlap check passes exactly when every byte at
the addresses 0x800 to 0xFFF is 0xFF, it then changes nothing, and when it fails the
overlap diagnostic is printed and validation ends there; an image holding 0xFE at an
address of that range is rejected with the overlap diagnostic whatever its other
bytes are. -/
theorem overlap_check_exact (s : Prog) (hok : s.bOK = true) :
    ((overlapStage s).bOK = true ↔ ∀ a, 0x800 ≤ a → a ≤ 0xFFF → s.nMap a = 0xFF) ∧
    ((overlapStage s).bOK = true → overlapStage s = s) ∧
    ((overlapStage s).bOK = false →
      validatePatch s = { s with bOK := false, log := s.log ++ [Msg.overlap] }) ∧
    (∀ a, 0x800 ≤ a → a ≤ 0xFFF → s.nMap a = 0xFE →
      (overlapStage s).bOK = false ∧
      validatePatch s = { s with bOK := false, log := s.log ++ [Msg.overlap] }) := by
  have hst : (overlapStage s).bOK = overlapCheck s.nMap := by
    cases ho : overlapCheck s.nMap <;> simp [overlapStage, hok, ho]
  refine ⟨?_, ?_, ?_, ?_⟩
  · rw [hst, overlapCheck_iff]
  · intro h
    rw [hst] at h
    simp [overlapStage, hok, h]
  · intro h
    rw [hst] at h
    exact validatePatch_overlap s hok h
  · intro a h1 h2 ha
    have ho : overlapCheck s.nMap = false := by
      cases hc : overlapCheck s.nMap
      · rfl
      · have := (overlapCheck_iff s.nMap).1 hc a h1 h2
        omega
    exact ⟨by rw [hst, ho], validatePatch_overlap s hok ho⟩

/-- C1, at a concrete input: the erased map with 0xFE at address 0x900. -/
theorem overlap_check_exact_witness :
    (overlapStage { start 0 [] [] with nMap := setByte erased 0x900 0xFE }).bOK = false ∧
    (validatePatch { start 0 [] [] with nMap := setByte erased 0x900 0xFE }).log
      = [Msg.overlap] := by
  have h := (overlap_check_exact { start 0 [] [] with nMap := setByte erased 0x900 0xFE }
    rfl).2.2.2 0x900 (by decide) (by decide) (by decide)
  exact ⟨h.1, by rw [h.2]; rfl⟩

theorem overlapCheck_congr (m m1 : Image)
    (h : ∀ a, 0x800 ≤ a → a ≤ 0xFFF → m1 a = m a) :
    overlapCheck m1 = overlapCheck m := by
  rw [Bool.eq_iff_iff, overlapCheck_iff, overlapCheck_iff]
  constructor
  · intro h1 a ha hb
    rw [← h a ha hb]; exact h1 a ha hb
  · intro h1 a ha hb
    rw [h a ha hb]; exact h1 a ha hb

theorem overlapCheck_vectorImage : overlapCheck vectorImage = true := by
  rw [overlapCheck_iff]
  intro a h1 h2
  have h0 : a ≠ 0 := by omega
  have h3 : a ≠ 1 := by omega
  have h4 : a ≠ 2 := by omega
  have h5 : a ≠ 4 := by omega
  have h6 : a ≠ 5 := by omega
  have h7 : a ≠ 6 := by omega
  simp [vectorImage, h0, h3, h4, h5, h6, h7]

/-- C2: for a map that passes the overlap check, validation succeeds exactly when the
bytes at the addresses 0, 1, 2, 4, 5, 6 are 0x00, 0x08, 0x04, 0x00, 0x00, 0x00; a map
that differs at address 3 only has the same outcome; and a map that differs from an
accepted one at a single one of the six addresses fails with the reset vector
diagnostic. -/
theorem reset_check_exact (s : Prog) (hok : s.bOK = true)
    (hov : (overlapStage s).bOK = true) :
    ((validatePatch s).bOK = true ↔
      s.nMap 0 = 0x00 ∧ s.nMap 1 = 0x08 ∧ s.nMap 2 = 0x04 ∧
      s.nMap 4 = 0x00 ∧ s.nMap 5 = 0x00 ∧ s.nMap 6 = 0x00) ∧
    (∀ m1 : Image, (∀ j, j ≠ 3 → m1 j = s.nMap j) →
      (validatePatch { s with nMap := m1 }).bOK = (validatePatch s).bOK ∧
      (validatePatch { s with nMap := m1 }).log = (validatePatch s).log) ∧
    (∀ (a : Nat) (m1 : Image), (validatePatch s).bOK = true →
      a = 0 ∨ a = 1 ∨ a = 2 ∨ a = 4 ∨ a = 5 ∨ a = 6 →
      (∀ j, j ≠ a → m1 j = s.nMap j) → m1 a ≠ s.nMap a →
      validatePatch { s with nMap := m1 } =
        { s with nMap := m1, bOK := false, log := s.log ++ [Msg.resetVector] }) := by
  have ho : overlapCheck s.nMap = true := by
    cases hc : overlapCheck s.nMap
    · simp [overlapStage, hok, hc] at hov
    · rfl
  refine ⟨?_, ?_, ?_⟩
  · rw [validatePatch_bOK s hok, ho, Bool.true_and, resetCheck_iff]
  · intro m1 h
    have ho1 : overlapCheck m1 = true := by
      rw [overlapCheck_congr s.nMap m1 (fun a ha _ => h a (by omega))]; exact ho
    have hr1 : resetCheck m1 = resetCheck s.nMap := by
      simp only [resetCheck, h 0 (by decide), h 1 (by decide), h 2 (by decide),
        h 4 (by decide), h 5 (by decide), h 6 (by decide)]
    cases hr : resetCheck s.nMap
    · rw [validatePatch_reset s hok ho hr,
        validatePatch_reset { s with nMap := m1 } hok ho1 (by rw [← hr, ← hr1])]
      exact ⟨rfl, rfl⟩
    · rw [validatePatch_pass s hok ho hr,
        validatePatch_pass { s with nMap := m1 } hok ho1 (by rw [← hr, ← hr1])]
      exact ⟨rfl, rfl⟩
  · intro a m1 hacc ha h hne
    rw [validatePatch_bOK s hok, ho, Bool.true_and, resetCheck_iff] at hacc
    have ho1 : overlapCheck m1 = true := by
      rw [overlapCheck_congr s.nMap m1 (fun b hb _ => h b (by omega))]; exact ho
    have hr1 : resetCheck m1 = false := by
      cases hc : resetCheck m1
      · rfl
      · rw [resetCheck_iff] at hc
        exfalso
        apply hne
        rcases ha with rfl | rfl | rfl | rfl | rfl | rfl <;> omega
    exact validatePatch_reset { s with nMap := m1 } hok ho1 hr1

/-- C2, at a concrete input: the image `vectorImage` is accepted, and with 0x09 in
place of 0x08 at address 1 it is rejected. -/
theorem reset_check_exact_witness :
    (validatePatch { start 0 [] [] with nMap := vectorImage }).bOK = true ∧
    (validatePatch { start 0 [] [] with
        nMap := fun j => if j = 1 then 0x09 else vectorImage j }).log
      = [Msg.resetVector] := by
  have hov : (overlapStage { start 0 [] [] with nMap := vectorImage }).bOK = true := by
    simp [overlapStage, start, overlapCheck_vectorImage]
  have h := reset_check_exact { start 0 [] [] with nMap := vectorImage } rfl hov
  have hacc : (validatePatch { start 0 [] [] with nMap := vectorImage }).bOK = true :=
    h.1.2 (by decide)
  refine ⟨hacc, ?_⟩
  have h2 := h.2.2 1 (fun j => if j = 1 then 0x09 else vectorImage j) hacc
    (by decide) (fun j hj => by simp [hj]) (by decide)
  exact congrArg Prog.log h2

/-- C3: with `bOK` true on entry, when both checks pass the map after validation and
patch holds 0x04 at address 1 and the bytes of the map before at every other address,
and the other variables are as before; when a check fails the map is unchanged; after
a successful validation and patch byte 1 is 0x04, and it is still 0x04 after validation
and patch are applied once more. -/
theorem validate_patch_post (s : Prog) (hok : s.bOK = true) :
    (overlapCheck s.nMap = true → resetCheck s.nMap = true →
      (validatePatch s).bOK = true ∧
      (validatePatch s).nMap 1 = 0x04 ∧
      (∀ j, j ≠ 1 → (validatePatch s).nMap j = s.nMap j) ∧
      validatePatch s = { s with nMap := (validatePatch s).nMap }) ∧
    ((overlapCheck s.nMap = false ∨ resetCheck s.nMap = false) →
      (validatePatch s).bOK = false ∧ (validatePatch s).nMap = s.nMap) ∧
    ((validatePatch s).bOK = true →
      (validatePatch s).nMap 1 = 0x04 ∧
      (validatePatch (validatePatch s)).nMap 1 = 0x04 ∧
      (validatePatch { validatePatch s with bOK := true }).nMap 1 = 0x04) := by
  have key : ∀ t : Prog, t.bOK = true → overlapCheck t.nMap = true →
      resetCheck t.nMap = true →
      (validatePatch t).nMap 1 = 0x04 ∧ ∀ j, j ≠ 1 → (validatePatch t).nMap j = t.nMap j := by
    intro t h1 h2 h3
    rw [validatePatch_pass t h1 h2 h3]
    exact ⟨by simp [setByte], fun j hj => by simp [setByte, hj]⟩
  have frame : ∀ t : Prog, t.nMap 1 = 0x04 → (validatePatch t).nMap 1 = 0x04 := by
    intro t ht
    cases hb : t.bOK
    · rw [validatePatch_not_ok t hb]; exact ht
    · cases h2 : overlapCheck t.nMap
      · rw [validatePatch_overlap t hb h2]; exact ht
      · cases h3 : resetCheck t.nMap
        · rw [validatePatch_reset t hb h2 h3]; exact ht
        · exact (key t hb h2 h3).1
  refine ⟨?_, ?_, ?_⟩
  · intro ho hr
    refine ⟨?_, (key s hok ho hr).1, (key s hok ho hr).2, ?_⟩
    · rw [validatePatch_bOK s hok, ho, hr]; rfl
    · rw [validatePatch_pass s hok ho hr]
  · intro h
    rcases h with h | h
    · rw [validatePatch_overlap s hok h]; exact ⟨rfl, rfl⟩
    · cases ho : overlapCheck s.nMap
      · rw [validatePatch_overlap s hok ho]; exact ⟨rfl, rfl⟩
      · rw [validatePatch_reset s hok ho h]; exact ⟨rfl, rfl⟩
  · intro h
    rw [validatePatch_bOK s hok, Bool.and_eq_true] at h
    have h1 := (key s hok h.1 h.2).1
    exact ⟨h1, frame _ h1, frame _ h1⟩

/-- C3, at a concrete input: the image `vectorImage` is accepted and patched, and a
second validation of the result leaves byte 1 at 0x04. -/
theorem validate_patch_post_witness :
    (validatePatch { start 0 [] [] with nMap := vectorImage }).bOK = true ∧
    (validatePatch { start 0 [] [] with nMap := vectorImage }).nMap 1 = 0x04 ∧
    (validatePatch (validatePatch { start 0 [] [] with nMap := vectorImage })).nMap 1
      = 0x04 := by
  have h := validate_patch_post { start 0 [] [] with nMap := vectorImage } rfl
  have h1 := h.1 overlapCheck_vectorImage (by decide)
  exact ⟨h1.1, h1.2.1, (h.2.2 h1.1).2.1⟩

/-! ## Lemmas on the reading of fields -/

theorem hexDigit_lt (c : Char) (d : Nat) (h : hexDigit c = some d) : d < 16 := by
  unfold hexDigit at h
  simp only at h
  split_ifs at h <;> simp at h <;> omega

theorem hexValue_lt (cs : List Char) (acc v : Nat) (h : hexValue cs acc = some v) :
    v < 16 ^ cs.length * (acc + 1) := by
  induction cs generalizing acc with
  | nil =>
    simp [hexValue] at h
    simp; omega
  | cons c cs ih =>
    unfold hexValue at h
    cases hd : hexDigit c with
    | none => simp [hd] at h
    | some d =>
      simp only [hd] at h
      have h1 := ih _ h
      have h2 := hexDigit_lt c d hd
      have h3 : 16 ^ cs.length * (16 * acc + d + 1) ≤ 16 ^ cs.length * (16 * (acc + 1)) :=
        Nat.mul_le_mul_left _ (by omega)
      rw [List.length_cons, pow_succ, Nat.mul_assoc]
      omega

theorem fieldValue_lt (k : Nat) (f : List Char) (v : Nat) (h : fieldValue k f = some v) :
    v < 16 ^ k := by
  unfold fieldValue at h
  split_ifs at h with hk
  have := hexValue_lt f 0 v h
  rw [hk] at this
  simpa using this

theorem readField_append (k : Nat) (f rest : List Char) (v : Nat)
    (h : fieldValue k f = some v) : readField k (f ++ rest) = some (v, rest) := by
  unfold fieldValue at h
  split_ifs at h with hk
  unfold readField
  have h1 : ¬ (f ++ rest).length < k := by simp [hk]
  rw [if_neg h1, ← hk, List.take_left, h, List.drop_left]

theorem scanColon_skip (ws rest : List Char)
    (hws : ∀ c ∈ ws, c.toNat = 10 ∨ c.toNat = 13) :
    scanColon (ws ++ ':' :: rest) = some (true, rest) := by
  induction ws with
  | nil => simp [scanColon]
  | cons c cs ih =>
    have hc := hws c (List.mem_cons_self _ _)
    have h1 : ¬ (c.toNat ≠ 10 ∧ c.toNat ≠ 13) := by omega
    simp only [List.cons_append, scanColon, if_neg h1]
    exact ih (fun d hd => hws d (List.mem_cons_of_mem _ hd))

theorem fieldBytes_length (fp : List Char) (bs : List Nat) (h : fieldBytes fp = some bs) :
    fp.length = 2 * bs.length := by
  induction bs generalizing fp with
  | nil =>
    match fp, h with
    | [], _ => rfl
    | [_], h => simp [fieldBytes] at h
    | a :: b :: r, h =>
      unfold fieldBytes at h
      cases h1 : hexValue [a, b] 0 <;> cases h2 : fieldBytes r <;> simp [h1, h2] at h
  | cons x xs ih =>
    match fp, h with
    | [], h => simp [fieldBytes] at h
    | [_], h => simp [fieldBytes] at h
    | a :: b :: r, h =>
      unfold fieldBytes at h
      cases h1 : hexValue [a, b] 0 <;> cases h2 : fieldBytes r <;> simp [h1, h2] at h
      have := ih r (by rw [h2, h.2])
      simp [this]; omega

theorem dataLoop_append (fp rest : List Char) (bs : List Nat) (m : Image)
    (nAddrH nAddrL ck : Nat) (h : fieldBytes fp = some bs) :
    dataLoop bs.length (fp ++ rest) m nAddrH nAddrL ck
      = some (storeBytes m nAddrH nAddrL bs, sumBytes ck bs, rest) := by
  induction bs generalizing fp m nAddrL ck with
  | nil =>
    match fp, h with
    | [], _ => rfl
    | [_], h => simp [fieldBytes] at h
    | a :: b :: r, h =>
      unfold fieldBytes at h
      cases h1 : hexValue [a, b] 0 <;> cases h2 : fieldBytes r <;> simp [h1, h2] at h
  | cons x xs ih =>
    match fp, h with
    | [], h => simp [fieldBytes] at h
    | [_], h => simp [fieldBytes] at h
    | a :: b :: r, h =>
      unfold fieldBytes at h
      cases h1 : hexValue [a, b] 0 <;> cases h2 : fieldBytes r <;> simp [h1, h2] at h
      obtain ⟨hx, hxs⟩ := h
      rw [hx] at h1
      rw [hxs] at h2
      have hf : readField 2 (a :: b :: r ++ rest) = some (x, r ++ rest) :=
        readField_append 2 [a, b] (r ++ rest) x (by simp [fieldValue, h1])
      simp only [List.length_cons, dataLoop, hf, storeBytes, sumBytes]
      exact ih r _ _ _ h2

theorem sumBytes_mod (ck : Nat) (bs : List Nat) :
    sumBytes ck bs % 256 = (ck + bs.sum) % 256 := by
  induction bs generalizing ck with
  | nil => simp [sumBytes]
  | cons b bs ih =>
    simp only [sumBytes, List.sum_cons, ih]
    omega

theorem sumBytes_lt (ck : Nat) (bs : List Nat) (h : ck < 256) : sumBytes ck bs < 256 := by
  induction bs generalizing ck with
  | nil => simpa [sumBytes] using h
  | cons b bs ih =>
    simp only [sumBytes]
    exact ih _ (Nat.mod_lt _ (by decide))


theorem low_byte (x : Nat) : x &&& 0xff = x % 256 :=
  Nat.and_pow_two_sub_one_eq_mod x 8

theorem high_byte (x : Nat) : (x >>> 8) &&& 0xff = x / 256 % 256 := by
  rw [low_byte, Nat.shiftRight_eq_div_pow]

theorem parseLoop_stop (fuel : Nat) (s : Prog) (h : (s.bOK && !s.bEOF) = false) :
    parseLoop fuel s = some s := by
  cases fuel <;> simp [parseLoop, h]

theorem parseLoop_step (fuel : Nat) (s s1 : Prog) (h : (s.bOK && !s.bEOF) = true)
    (h1 : recordStep s = some s1) : parseLoop (fuel + 1) s = parseLoop fuel s1 := by
  simp [parseLoop, h, h1]

/-! ## Claims on the records -/

/-- C4: a data record (count `n`, address field `A`, type 0, payload `p` of `n`
bytes, received checksum `c`, each written in hexadecimal digits of either case,
after any line ends) is read whole; `bOK` is true after it exactly when
`(n + A mod 256 + A / 256 + 0 + sum p + c) mod 256 = 0`; otherwise the checksum
diagnostic is printed and the loop over the records ends there, the rest of the
file unread. -/
theorem data_record_checksum (s : Prog) (ws fn fa ft fp fc rest : List Char)
    (n A c : Nat) (p : List Nat)
    (hok : s.bOK = true) (heof : s.bEOF = false)
    (hws : ∀ ch ∈ ws, ch.toNat = 10 ∨ ch.toNat = 13)
    (hn : fieldValue 2 fn = some n) (hA : fieldValue 4 fa = some A)
    (ht : fieldValue 2 ft = some 0) (hp : fieldBytes fp = some p) (hlen : p.length = n)
    (hc : fieldValue 2 fc = some c)
    (hfile : s.hFile = ws ++ ':' :: (fn ++ fa ++ ft ++ fp ++ fc ++ rest)) :
    ∃ s1, recordStep s = some s1 ∧ s1.hFile = rest ∧ s1.nRecord = s.nRecord + 1 ∧
      (s1.bOK = true ↔ (n + A % 256 + A / 256 % 256 + 0 + p.sum + c) % 256 = 0) ∧
      (s1.bOK = true → s1.log = s.log) ∧
      (s1.bOK = false → s1.log = s.log ++ [Msg.checksumError] ∧
        ∀ fuel, parseLoop (fuel + 1) s = some s1) := by
  have hn1 := fieldValue_lt 2 fn n hn
  have hc1 := fieldValue_lt 2 fc c hc
  have hfile1 : s.hFile = ws ++ ':' :: (fn ++ (fa ++ (ft ++ (fp ++ (fc ++ rest))))) := by
    rw [hfile]; simp only [List.append_assoc]
  have hscan := scanColon_skip ws (fn ++ (fa ++ (ft ++ (fp ++ (fc ++ rest))))) hws
  have r1 := readField_append 2 fn (fa ++ (ft ++ (fp ++ (fc ++ rest)))) n hn
  have r2 := readField_append 4 fa (ft ++ (fp ++ (fc ++ rest))) A hA
  have r3 := readField_append 2 ft (fp ++ (fc ++ rest)) 0 ht
  have r4 := dataLoop_append fp (fc ++ rest) p s.nMap s.nAddrH A
    ((((n % 256 + (A &&& 0xff)) % 256 + ((A >>> 8) &&& 0xff)) % 256 + 0) % 256) hp
  have r5 := readField_append 2 fc rest c hc
  rw [hlen] at r4
  have hck := sumBytes_mod
    ((((n % 256 + (A &&& 0xff)) % 256 + ((A >>> 8) &&& 0xff)) % 256 + 0) % 256) p
  have hlt := sumBytes_lt
    ((((n % 256 + (A &&& 0xff)) % 256 + ((A >>> 8) &&& 0xff)) % 256 + 0) % 256) p
    (Nat.mod_lt _ (by decide))
  generalize hK : sumBytes
    ((((n % 256 + (A &&& 0xff)) % 256 + ((A >>> 8) &&& 0xff)) % 256 + 0) % 256) p = K
    at r4 hck hlt
  rw [low_byte, high_byte] at hck
  have hrec : recordStep s = checkStep
      { s with nRecord := s.nRecord + 1, nMap := storeBytes s.nMap s.nAddrH A p }
      K (fc ++ rest) := by
    simp only [recordStep, hfile1, hscan, decodeRecord, r1, r2, r3, switchStep, r4,
      if_true]
  have hiff : c = (256 - K) % 256 ↔
      (n + A % 256 + A / 256 % 256 + 0 + p.sum + c) % 256 = 0 := by
    by_cases hz : K = 0
    · rw [hz] at hck ⊢
      simp only [Nat.sub_zero, Nat.mod_self]
      omega
    · have e : (256 - K) % 256 = 256 - K := Nat.mod_eq_of_lt (by omega)
      rw [e]
      omega
  by_cases hacc : c = (256 - K) % 256
  · refine ⟨_, by rw [hrec]; simp only [checkStep, r5]; rw [if_pos (by simpa using hacc)],
      rfl, rfl, ?_, ?_, ?_⟩
    · simp only [true_iff]; exact hiff.1 hacc
    · intro _; rfl
    · intro h; simp at h
  · refine ⟨_, by rw [hrec]; simp only [checkStep, r5]; rw [if_neg (by simpa using hacc)],
      rfl, rfl, ?_, ?_, ?_⟩
    · simp only [Bool.false_eq_true, false_iff]; exact fun h => hacc (hiff.2 h)
    · intro h; simp at h
    · intro _
      refine ⟨rfl, fun fuel => ?_⟩
      rw [parseLoop_step fuel s _ (by simp [hok, heof])
        (by rw [hrec]; simp only [checkStep, r5]; rw [if_neg (by simpa using hacc)])]
      exact parseLoop_stop _ _ rfl

/-- C4, at a concrete input: the record `:01100000EE01` (one byte 0xEE for address
0x1000) read at the start of a file. -/
theorem data_record_checksum_witness :
    ∃ s1, recordStep (start 0 ":01100000EE01".toList []) = some s1 ∧ s1.hFile = [] ∧
      s1.nRecord = 0 + 1 ∧
      (s1.bOK = true ↔ (1 + 0x1000 % 256 + 0x1000 / 256 % 256 + 0 + [0xEE].sum + 1) % 256 = 0) ∧
      (s1.bOK = true → s1.log = []) ∧
      (s1.bOK = false → s1.log = [] ++ [Msg.checksumError] ∧
        ∀ fuel, parseLoop (fuel + 1) (start 0 ":01100000EE01".toList []) = some s1) :=
  data_record_checksum (start 0 ":01100000EE01".toList []) [] "01".toList "1000".toList
    "00".toList "EE".toList "01".toList [] 1 0x1000 1 [0xEE] rfl rfl (by simp)
    (by decide) (by decide) (by decide) (by decide) rfl (by decide) (by decide)


/-! ## Lemmas on the transfer of a page -/

theorem pageData_range (len i0 a0 : Nat) (s : Prog) :
    (List.range' i0 len).foldl
      (fun (st : Prog × Nat) i =>
        if (i &&& 3) != 3 then
          (writePort { st.1 with nChecksum := (st.1.nChecksum + st.1.nMap st.2) % 256 }
              [st.1.nMap st.2], st.2 + 1)
        else (st.1, st.2 + 1))
      (s, a0 + i0)
    = ({ s with
          tx := s.tx ++ ((List.range' i0 len).filter (fun i => i % 4 ≠ 3)).map
            (fun i => s.nMap (a0 + i)),
          nChecksum := sumBytes s.nChecksum
            (((List.range' i0 len).filter (fun i => i % 4 ≠ 3)).map
              (fun i => s.nMap (a0 + i))) },
        a0 + i0 + len) := by
  induction len generalizing i0 s with
  | zero => simp [sumBytes]
  | succ len ih =>
    have hand : i0 &&& 3 = i0 % 4 := Nat.and_pow_two_sub_one_eq_mod i0 2
    rw [List.range'_succ, List.foldl_cons, hand]
    by_cases h3 : i0 % 4 = 3
    · have e : a0 + i0 + 1 = a0 + (i0 + 1) := by omega
      simp only [h3, bne_self_eq_false, Bool.false_eq_true, if_false, e, ih]
      simp [List.filter_cons, h3]
      omega
    · have e : a0 + i0 + 1 = a0 + (i0 + 1) := by omega
      have hb : (i0 % 4 != 3) = true := by simpa using h3
      simp only [hb, if_true, e, ih]
      simp [List.filter_cons, h3, writePort, sumBytes]
      omega

theorem pageData_eq (s : Prog) (a : Nat) :
    pageData s a =
      ({ s with tx := s.tx ++ pageBytes s.nMap a,
                nChecksum := sumBytes s.nChecksum (pageBytes s.nMap a) }, a + 2048) := by
  have h := pageData_range 2048 0 a s
  rw [← List.range_eq_range'] at h
  simpa [pageData, pageBytes] using h

theorem readPort_frame (s : Prog) :
    (readPort s).1.tx = s.tx ∧ (readPort s).1.nMap = s.nMap ∧
    (readPort s).1.nChecksum = s.nChecksum ∧ (readPort s).1.bOK = s.bOK ∧
    (readPort s).1.log = s.log := by
  unfold readPort
  rcases s.rx with _ | ⟨_ | b, rs⟩ <;> exact ⟨rfl, rfl, rfl, rfl, rfl⟩

set_option maxRecDepth 100000 in
theorem pageBytes_length (m : Image) (a : Nat) : (pageBytes m a).length = 1536 := by
  rw [pageBytes, List.length_map]
  decide

theorem pageAddress_frame (s : Prog) (a : Nat) :
    (pageAddress s a).tx = s.tx ++ addressBytes a ∧ (pageAddress s a).nMap = s.nMap ∧
    (pageAddress s a).nChecksum =
      (((((a >>> 1) &&& 0xff) + ((a >>> 9) &&& 0xff)) % 256 + ((a >>> 17) &&& 0xff)) % 256) ∧
    (pageAddress s a).bOK = s.bOK ∧ (pageAddress s a).log = s.log ∧
    (pageAddress s a).rx = s.rx := by
  refine ⟨?_, rfl, rfl, rfl, rfl, rfl⟩
  simp [pageAddress, writePort, addressBytes]

theorem echoCheck_frame (s : Prog) (n : Nat) :
    (echoCheck s n).tx = s.tx ++ [s.nChecksum] ∧ (echoCheck s n).nMap = s.nMap := by
  unfold echoCheck
  dsimp only
  split_ifs
  · exact ⟨(readPort_frame _).1, (readPort_frame _).2.1⟩
  · exact ⟨(readPort_frame _).1, (readPort_frame _).2.1⟩

theorem doneCheck_frame (s : Prog) (n : Nat) :
    (doneCheck s n).tx = s.tx ∧ (doneCheck s n).nMap = s.nMap := by
  unfold doneCheck
  dsimp only
  split_ifs
  · exact ⟨(readPort_frame _).1, (readPort_frame _).2.1⟩
  · exact ⟨(readPort_frame _).1, (readPort_frame _).2.1⟩

theorem pageStep_tx (s : Prog) (a : Nat) :
    (pageStep s a).1.tx = s.tx ++ pageFrame s.nMap a := by
  have hs := sumBytes_mod
    (((((a >>> 1) &&& 0xff) + ((a >>> 9) &&& 0xff)) % 256 + ((a >>> 17) &&& 0xff)) % 256)
    (pageBytes s.nMap a)
  have hl := sumBytes_lt
    (((((a >>> 1) &&& 0xff) + ((a >>> 9) &&& 0xff)) % 256 + ((a >>> 17) &&& 0xff)) % 256)
    (pageBytes s.nMap a) (Nat.mod_lt _ (by decide))
  rw [Nat.mod_eq_of_lt hl] at hs
  have hsum : (addressBytes a).sum
      = ((a >>> 1) &&& 0xff) + (((a >>> 9) &&& 0xff) + ((a >>> 17) &&& 0xff)) := by
    simp [addressBytes]
  have hck : sumBytes
      (((((a >>> 1) &&& 0xff) + ((a >>> 9) &&& 0xff)) % 256 + ((a >>> 17) &&& 0xff)) % 256)
      (pageBytes s.nMap a)
      = ((addressBytes a).sum + (pageBytes s.nMap a).sum) % 256 := by
    rw [hs, hsum]
    omega
  have hp := pageAddress_frame s a
  unfold pageStep
  dsimp only
  rw [(doneCheck_frame _ _).1, (echoCheck_frame _ _).1, pageData_eq]
  dsimp only
  rw [hp.1, hp.2.1, hp.2.2.1, hck, pageFrame]
  simp only [List.append_assoc]

theorem pageStep_nMap (s : Prog) (a : Nat) : (pageStep s a).1.nMap = s.nMap := by
  unfold pageStep
  dsimp only
  rw [(doneCheck_frame _ _).2, (echoCheck_frame _ _).2, pageData_eq]
  exact (pageAddress_frame s a).2.1

theorem pageStep_next (s : Prog) (a : Nat) :
    (pageStep s a).2 = if a + 2048 = 2048 then 4096 else a + 2048 := by
  simp [pageStep, pageData_eq, skipBootloader]

/-! ## Claims on the transfer of the pages -/

/-- C6: for every map and every page start address `a`, sending the page appends to
the bytes written the three address bytes, then the 1536 bytes of the map at `a + i`
for `i` from 0 to 2047 with `i mod 4` other than 3, in increasing order of `i`, then
one byte equal to the sum of the address bytes and of those data bytes modulo 256:
1540 bytes in all. -/
theorem page_frame_exact (s : Prog) (a : Nat) :
    (pageStep s a).1.tx =
      s.tx ++ ([(a >>> 1) &&& 0xff, (a >>> 9) &&& 0xff, (a >>> 17) &&& 0xff]
        ++ ((List.range 2048).filter (fun i => i % 4 ≠ 3)).map (fun i => s.nMap (a + i))
        ++ [(((a >>> 1) &&& 0xff) + ((a >>> 9) &&& 0xff) + ((a >>> 17) &&& 0xff)
              + (((List.range 2048).filter (fun i => i % 4 ≠ 3)).map
                  (fun i => s.nMap (a + i))).sum) % 256]) ∧
    (((List.range 2048).filter (fun i => i % 4 ≠ 3)).map (fun i => s.nMap (a + i))).length
      = 1536 ∧
    (pageStep s a).1.tx.length = s.tx.length + 1540 := by
  have h := pageStep_tx s a
  have hl := pageBytes_length s.nMap a
  refine ⟨?_, hl, ?_⟩
  · rw [h, pageFrame, addressBytes, pageBytes]
    simp [Nat.add_assoc]
  · rw [h, pageFrame, List.length_append, List.length_append, List.length_append, hl]
    simp [addressBytes]

theorem pageAddr_next (k : Nat) :
    (if pageAddr k + 2048 = 2048 then 4096 else pageAddr k + 2048) = pageAddr (k + 1) := by
  unfold pageAddr
  by_cases h : k = 0
  · subst h; simp
  · have h1 : ¬ (2048 * (k + 1) + 2048 = 2048) := by omega
    have h2 : k + 1 ≠ 0 := by omega
    rw [if_neg h, if_neg h1, if_neg h2]
    omega

theorem pageStep_bOK_false (s : Prog) (a : Nat) (h : s.bOK = false) :
    (pageStep s a).1.bOK = false := by
  have e1 : (pageData (pageAddress s a) a).1.bOK = false := by
    rw [pageData_eq]; exact h
  have e2 : ∀ (t : Prog) (n : Nat), t.bOK = false → (echoCheck t n).bOK = false := by
    intro t n ht
    unfold echoCheck
    dsimp only
    split_ifs
    · rfl
    · rw [(readPort_frame _).2.2.2.1]; exact ht
  have e3 : ∀ (t : Prog) (n : Nat), t.bOK = false → (doneCheck t n).bOK = false := by
    intro t n ht
    unfold doneCheck
    dsimp only
    split_ifs
    · rfl
    · rw [(readPort_frame _).2.2.2.1]; exact ht
  unfold pageStep
  dsimp only
  apply e3
  apply e2
  exact e1

theorem pageLoop_tx (n : Nat) (s : Prog) (k : Nat) :
    ∃ j, j ≤ n ∧
      (pageLoop n s (pageAddr k)).tx
        = s.tx ++ (List.range' k j).flatMap (fun i => pageFrame s.nMap (pageAddr i)) ∧
      (pageLoop n s (pageAddr k)).nMap = s.nMap ∧
      ((pageLoop n s (pageAddr k)).bOK = true → j = n) := by
  induction n generalizing s k with
  | zero => exact ⟨0, le_refl _, by simp [pageLoop], rfl, fun _ => rfl⟩
  | succ n ih =>
    cases hb : s.bOK
    · refine ⟨0, Nat.zero_le _, by simp [pageLoop, hb], by simp [pageLoop, hb], ?_⟩
      intro h
      simp [pageLoop, hb] at h
    · obtain ⟨j, hj, htx, hm, hall⟩ := ih (pageStep s (pageAddr k)).1 (k + 1)
      have hstep : pageLoop (n + 1) s (pageAddr k)
          = pageLoop n (pageStep s (pageAddr k)).1 (pageAddr (k + 1)) := by
        rw [pageLoop, if_pos hb, pageStep_next, pageAddr_next]
      refine ⟨j + 1, by omega, ?_, ?_, ?_⟩
      · rw [hstep, htx, pageStep_tx, pageStep_nMap, List.range'_succ, List.flatMap_cons,
          List.append_assoc]
      · rw [hstep, hm, pageStep_nMap]
      · intro h
        rw [hstep] at h
        rw [hall h]

theorem headerStep_frame (s : Prog) (nPages : Nat) :
    (headerStep s nPages).tx
      = s.tx ++ [nPages &&& 0xff, (nPages >>> 8) &&& 0xff,
          ((nPages &&& 0xff) + ((nPages >>> 8) &&& 0xff)) % 256] ∧
    (headerStep s nPages).nMap = s.nMap := by
  unfold headerStep
  dsimp only
  split_ifs
  · exact ⟨by simp [(readPort_frame _).1, writePort], by simp [(readPort_frame _).2.1, writePort]⟩
  · exact ⟨by simp [(readPort_frame _).1, writePort], by simp [(readPort_frame _).2.1, writePort]⟩

/-- C7: in a transfer the bytes written after the header are the frames of the pages
0, 1, ... up to some number `j` of pages, at most the page count and equal to it when
the transfer ends with `bOK` true; page `k` starts at byte address 0 when `k = 0` and at
`2048 * (k + 1)` otherwise; its address bytes are the three bytes, low first, of the
word address `addr / 2`; and none of the addresses `addr + i`, `i < 2048`, of a page
lies in 2048..4095. -/
theorem page_addressing (s : Prog) (hok : s.bOK = true) :
    (∃ j, j ≤ maxAddr s.nMap / 2048 ∧
      (transferStage s).tx =
        s.tx ++ [(maxAddr s.nMap / 2048) &&& 0xff, ((maxAddr s.nMap / 2048) >>> 8) &&& 0xff,
                 (((maxAddr s.nMap / 2048) &&& 0xff)
                    + (((maxAddr s.nMap / 2048) >>> 8) &&& 0xff)) % 256]
          ++ (List.range j).flatMap (fun k => pageFrame s.nMap (pageAddr k)) ∧
      ((transferStage s).bOK = true → j = maxAddr s.nMap / 2048)) ∧
    (∀ k, pageAddr k = if k = 0 then 0 else 2048 * (k + 1)) ∧
    (∀ k, addressBytes (pageAddr k) =
      [(pageAddr k >>> 1) &&& 0xff, (pageAddr k >>> 9) &&& 0xff, (pageAddr k >>> 17) &&& 0xff] ∧
      addressBytes (pageAddr k) =
      [pageAddr k / 2 % 256, pageAddr k / 2 / 256 % 256, pageAddr k / 2 / 65536 % 256]) ∧
    (∀ k i, i < 2048 → ¬ (2048 ≤ pageAddr k + i ∧ pageAddr k + i ≤ 4095)) := by
  refine ⟨?_, fun _ => rfl, ?_, ?_⟩
  · obtain ⟨j, hj, htx, _, hall⟩ :=
      pageLoop_tx (maxAddr s.nMap / 2048) (headerStep s (maxAddr s.nMap / 2048)) 0
    have h0 : pageAddr 0 = 0 := rfl
    rw [h0] at htx hall
    refine ⟨j, hj, ?_, ?_⟩
    · simp only [transferStage, hok, if_true]
      rw [htx, (headerStep_frame _ _).1, (headerStep_frame _ _).2, List.range_eq_range']
    · intro h
      simp only [transferStage, hok, if_true] at h
      exact hall h
  · intro k
    refine ⟨rfl, ?_⟩
    simp only [addressBytes, low_byte, Nat.shiftRight_eq_div_pow, Nat.div_div_eq_div_mul]
  · intro k i hi
    unfold pageAddr
    split_ifs <;> omega


/-! ## Lemmas and claim on the search for the device -/

theorem findLoop_succ (fuel : Nat) (s : Prog) (hc : s.nRetryCount < 30)
    (hb : s.bOK = false) :
    findLoop (fuel + 1) s = findLoop fuel (findRound s) := by
  have h : (decide (s.nRetryCount < 30) && !s.bOK) = true := by simp [hc, hb]
  rw [findLoop, if_pos h]

theorem findLoop_done (fuel : Nat) (s : Prog) (hb : s.bOK = true) :
    findLoop fuel s = s := by
  cases fuel with
  | zero => rfl
  | succ n => simp [findLoop, hb]

theorem findRound_frame (s : Prog) :
    (findRound s).tx = s.tx ++ [0x33, 0x33, 0x46] ∧
    (findRound s).nRetryCount = s.nRetryCount + 1 ∧
    (findRound s).rx = s.rx.tail ∧
    (findRound s).nMap = s.nMap ∧ (findRound s).log = s.log ∧
    ((findRound s).bOK = true ↔ s.rx[0]? = some (some 0x6B)) := by
  unfold findRound readPort writePort
  rcases hr : s.rx with _ | ⟨_ | b, rs⟩
  · simp
  · simp
  · simp

theorem findLoop_none (fuel : Nat) (s : Prog) (hb : s.bOK = false)
    (hc : s.nRetryCount + fuel = 30)
    (hno : ∀ i, i < fuel → s.rx[i]? ≠ some (some 0x6B)) :
    (findLoop fuel s).bOK = false ∧ (findLoop fuel s).nRetryCount = 30 ∧
    (findLoop fuel s).tx = s.tx ++ (List.range fuel).flatMap (fun _ => [0x33, 0x33, 0x46]) ∧
    (findLoop fuel s).nMap = s.nMap ∧ (findLoop fuel s).log = s.log := by
  induction fuel generalizing s with
  | zero => exact ⟨hb, by simpa using hc, by simp [findLoop], rfl, rfl⟩
  | succ n ih =>
    obtain ⟨f1, f2, f3, f4, f5, f6⟩ := findRound_frame s
    have hb1 : (findRound s).bOK = false := by
      cases h : (findRound s).bOK
      · rfl
      · exact absurd (f6.1 h) (hno 0 (by omega))
    have hno1 : ∀ i, i < n → (findRound s).rx[i]? ≠ some (some 0x6B) := by
      intro i hi
      rw [f3]
      have := hno (i + 1) (by omega)
      rcases hr : s.rx with _ | ⟨x, rs⟩
      · simp
      · rw [hr] at this; simpa using this
    obtain ⟨g1, g2, g3, g4, g5⟩ := ih (findRound s) hb1 (by omega) hno1
    rw [findLoop_succ n s (by omega) hb]
    refine ⟨g1, g2, ?_, by rw [g4, f4], by rw [g5, f5]⟩
    rw [g3, f1, List.range_succ_eq_map, List.flatMap_cons, List.flatMap_map, List.append_assoc]

theorem findLoop_ack (fuel : Nat) (s : Prog) (i : Nat) (hb : s.bOK = false)
    (hc : s.nRetryCount + fuel = 30) (hi : i < fuel)
    (hack : s.rx[i]? = some (some 0x6B))
    (hno : ∀ j, j < i → s.rx[j]? ≠ some (some 0x6B)) :
    (findLoop fuel s).bOK = true ∧ (findLoop fuel s).nRetryCount = s.nRetryCount + i + 1 ∧
    (findLoop fuel s).tx
      = s.tx ++ (List.range (i + 1)).flatMap (fun _ => [0x33, 0x33, 0x46]) ∧
    (findLoop fuel s).nMap = s.nMap ∧ (findLoop fuel s).log = s.log := by
  induction fuel generalizing s i with
  | zero => omega
  | succ n ih =>
    obtain ⟨f1, f2, f3, f4, f5, f6⟩ := findRound_frame s
    rw [findLoop_succ n s (by omega) hb]
    cases i with
    | zero =>
      have hb1 : (findRound s).bOK = true := f6.2 hack
      rw [findLoop_done n _ hb1]
      exact ⟨hb1, by rw [f2], by rw [f1]; rfl, f4, f5⟩
    | succ i =>
      have hb1 : (findRound s).bOK = false := by
        cases h : (findRound s).bOK
        · rfl
        · exact absurd (f6.1 h) (hno 0 (by omega))
      have hack1 : (findRound s).rx[i]? = some (some 0x6B) := by
        rw [f3]
        rcases hr : s.rx with _ | ⟨x, rs⟩
        · rw [hr] at hack; simp at hack
        · rw [hr] at hack; simpa using hack
      have hno1 : ∀ j, j < i → (findRound s).rx[j]? ≠ some (some 0x6B) := by
        intro j hj
        rw [f3]
        have := hno (j + 1) (by omega)
        rcases hr : s.rx with _ | ⟨x, rs⟩
        · simp
        · rw [hr] at this; simpa using this
      obtain ⟨g1, g2, g3, g4, g5⟩ := ih (findRound s) i hb1 (by omega) (by omega) hack1 hno1
      refine ⟨g1, by rw [g2, f2]; omega, ?_, by rw [g4, f4], by rw [g5, f5]⟩
      rw [g3, f1, List.range_succ_eq_map (i + 1), List.flatMap_cons, List.flatMap_map,
        List.append_assoc]


/-- C8: with `bOK` true and `nRetryCount` 0 on entry, the search for the device ends
with `bOK` true exactly when one of the first 30 reads yields a byte and that byte is
`'k'`; when read number `i` (from 0) is the first such, `i + 1` rounds are made; when
there is none, exactly 30 rounds are made and the program writes nothing more; every
round writes the three bytes `'3'`, `'3'`, `'F'` and nothing else. -/
theorem find_target_exact (s : Prog) (hok : s.bOK = true) (hcnt : s.nRetryCount = 0) :
    ((findStage s).bOK = true ↔ ∃ i, i < 30 ∧ s.rx[i]? = some (some 0x6B)) ∧
    (∀ i, i < 30 → s.rx[i]? = some (some 0x6B) →
      (∀ j, j < i → s.rx[j]? ≠ some (some 0x6B)) →
      (findStage s).bOK = true ∧ (findStage s).nRetryCount = i + 1 ∧
      (findStage s).tx = s.tx ++ (List.range (i + 1)).flatMap (fun _ => [0x33, 0x33, 0x46]) ∧
      (findStage s).log = s.log ++ [Msg.findOk]) ∧
    ((∀ i, i < 30 → s.rx[i]? ≠ some (some 0x6B)) →
      (findStage s).bOK = false ∧ (findStage s).nRetryCount = 30 ∧
      (findStage s).tx = s.tx ++ (List.range 30).flatMap (fun _ => [0x33, 0x33, 0x46]) ∧
      (findStage s).tx.length = s.tx.length + 90 ∧
      (findStage s).log = s.log ++ [Msg.findError] ∧
      (finishStage (transferStage (findStage s))).tx = (findStage s).tx) := by
  have hst : findStage s =
      if (findLoop 30 { s with bOK := false }).bOK = true then
        { findLoop 30 { s with bOK := false } with
          log := (findLoop 30 { s with bOK := false }).log ++ [Msg.findOk] }
      else
        { findLoop 30 { s with bOK := false } with
          log := (findLoop 30 { s with bOK := false }).log ++ [Msg.findError] } := by
    simp only [findStage, hok, if_true]
  have hack : ∀ i, i < 30 → s.rx[i]? = some (some 0x6B) →
      (∀ j, j < i → s.rx[j]? ≠ some (some 0x6B)) →
      (findStage s).bOK = true ∧ (findStage s).nRetryCount = i + 1 ∧
      (findStage s).tx = s.tx ++ (List.range (i + 1)).flatMap (fun _ => [0x33, 0x33, 0x46]) ∧
      (findStage s).log = s.log ++ [Msg.findOk] := by
    intro i hi ha hno
    obtain ⟨g1, g2, g3, _, g5⟩ :=
      findLoop_ack 30 { s with bOK := false } i rfl (by simpa using hcnt) hi ha hno
    rw [hst, if_pos g1]
    exact ⟨g1, by rw [g2]; simp [hcnt], g3, by rw [g5]⟩
  have hnone : (∀ i, i < 30 → s.rx[i]? ≠ some (some 0x6B)) →
      (findStage s).bOK = false ∧ (findStage s).nRetryCount = 30 ∧
      (findStage s).tx = s.tx ++ (List.range 30).flatMap (fun _ => [0x33, 0x33, 0x46]) ∧
      (findStage s).log = s.log ++ [Msg.findError] := by
    intro hno
    obtain ⟨g1, g2, g3, _, g5⟩ :=
      findLoop_none 30 { s with bOK := false } rfl (by simpa using hcnt) hno
    rw [hst, if_neg (by rw [g1]; exact Bool.false_ne_true)]
    exact ⟨g1, g2, g3, by rw [g5]⟩
  refine ⟨?_, hack, ?_⟩
  · constructor
    · intro h
      by_contra hne
      have hno : ∀ i, i < 30 → s.rx[i]? ≠ some (some 0x6B) :=
        fun i hi hi2 => hne ⟨i, hi, hi2⟩
      rw [(hnone hno).1] at h
      exact Bool.false_ne_true h
    · intro h
      classical
      have hex : ∃ i, i < 30 ∧ s.rx[i]? = some (some 0x6B) := h
      obtain ⟨hm1, hm2⟩ := Nat.find_spec hex
      exact (hack (Nat.find hex) hm1 hm2
        (fun j hj hj2 => Nat.find_min hex hj ⟨by omega, hj2⟩)).1
  · intro hno
    obtain ⟨g1, g2, g3, g4⟩ := hnone hno
    refine ⟨g1, g2, g3, ?_, g4, ?_⟩
    · rw [g3, List.length_append]
      rfl
    · simp [finishStage, transferStage, g1]

/-- C8, at a concrete input: a device that answers `'k'` to the 30th read only. -/
theorem find_target_exact_witness :
    (findStage (start 0 [] (List.replicate 29 none ++ [some 0x6B]))).bOK = true ∧
    (findStage (start 0 [] (List.replicate 29 none ++ [some 0x6B]))).nRetryCount = 29 + 1 ∧
    (findStage (start 0 [] (List.replicate 29 none ++ [some 0x6B]))).tx.length = 90 := by
  have h := (find_target_exact (start 0 [] (List.replicate 29 none ++ [some 0x6B]))
    rfl rfl).2.1 29 (by decide) (by decide) (by decide)
  exact ⟨h.1, h.2.1, by rw [h.2.2.1]; rfl⟩


/-! ## Lemmas and claims on the whole program -/

theorem checkStep_tx (s s1 : Prog) (ck : Nat) (inp : List Char)
    (h : checkStep s ck inp = some s1) : s1.tx = s.tx := by
  unfold checkStep at h
  split at h
  · simp at h
  · dsimp only at h
    split at h <;> (injection h with h; subst h; rfl)

theorem switchStep_tx (s s1 : Prog) (nSize nAddrL nType ck ck1 : Nat) (inp r : List Char)
    (h : switchStep s nSize nAddrL nType ck inp = some (s1, ck1, r)) : s1.tx = s.tx := by
  unfold switchStep at h
  split_ifs at h
  · split at h
    · simp at h
    · injection h with h; injection h with h1 _; subst h1; rfl
  · injection h with h; injection h with h1 _; subst h1; rfl
  · injection h with h; injection h with h1 _; subst h1; rfl
  · split at h
    · simp at h
    · dsimp only at h
      injection h with h; injection h with h1 _; subst h1
      split_ifs <;> rfl
  · injection h with h; injection h with h1 _; subst h1; rfl

theorem decodeRecord_tx (s s1 : Prog) (inp : List Char)
    (h : decodeRecord s inp = some s1) : s1.tx = s.tx := by
  unfold decodeRecord at h
  split at h
  · simp at h
  · split at h
    · simp at h
    · split at h
      · simp at h
      · dsimp only at h
        split at h
        · simp at h
        · rename_i s2 ck r4 hsw
          rw [checkStep_tx _ _ _ _ h, switchStep_tx _ _ _ _ _ _ _ _ _ hsw]

theorem recordStep_tx (s s1 : Prog) (h : recordStep s = some s1) : s1.tx = s.tx := by
  unfold recordStep at h
  split at h
  · simp at h
  · split_ifs at h
    · exact decodeRecord_tx _ _ _ h
    · injection h with h; subst h; rfl

theorem parseLoop_tx (fuel : Nat) (s s1 : Prog) (h : parseLoop fuel s = some s1) :
    s1.tx = s.tx := by
  induction fuel generalizing s with
  | zero =>
    unfold parseLoop at h
    split_ifs at h
    injection h with h; subst h; rfl
  | succ n ih =>
    unfold parseLoop at h
    split_ifs at h
    · split at h
      · simp at h
      · rename_i s2 hs2
        rw [ih _ h, recordStep_tx _ _ hs2]
    · injection h with h; subst h; rfl

theorem loadStage_tx (s s1 : Prog) (h : loadStage s = some s1) : s1.tx = s.tx := by
  unfold loadStage at h
  split_ifs at h
  · split at h
    · simp at h
    · rename_i s2 hs2
      injection h with h; subst h
      have := parseLoop_tx _ _ _ hs2
      split_ifs <;> exact this
  · injection h with h; subst h; rfl

theorem validatePatch_tx (s : Prog) : (validatePatch s).tx = s.tx := by
  unfold validatePatch patchStage resetStage overlapStage
  split_ifs <;> rfl

theorem stages_not_ok (s : Prog) (h : s.bOK = false) :
    finishStage (transferStage (findStage s)) = s := by
  simp [finishStage, transferStage, findStage, h]

theorem checkStep_rx (s s1 : Prog) (ck : Nat) (inp : List Char)
    (h : checkStep s ck inp = some s1) : s1.rx = s.rx := by
  unfold checkStep at h
  split at h
  · simp at h
  · dsimp only at h
    split at h <;> (injection h with h; subst h; rfl)

theorem switchStep_rx (s s1 : Prog) (nSize nAddrL nType ck ck1 : Nat) (inp r : List Char)
    (h : switchStep s nSize nAddrL nType ck inp = some (s1, ck1, r)) : s1.rx = s.rx := by
  unfold switchStep at h
  split_ifs at h
  · split at h
    · simp at h
    · injection h with h; injection h with h1 _; subst h1; rfl
  · injection h with h; injection h with h1 _; subst h1; rfl
  · injection h with h; injection h with h1 _; subst h1; rfl
  · split at h
    · simp at h
    · dsimp only at h
      injection h with h; injection h with h1 _; subst h1
      split_ifs <;> rfl
  · injection h with h; injection h with h1 _; subst h1; rfl

theorem decodeRecord_rx (s s1 : Prog) (inp : List Char)
    (h : decodeRecord s inp = some s1) : s1.rx = s.rx := by
  unfold decodeRecord at h
  split at h
  · simp at h
  · split at h
    · simp at h
    · split at h
      · simp at h
      · dsimp only at h
        split at h
        · simp at h
        · rename_i s2 ck r4 hsw
          rw [checkStep_rx _ _ _ _ h, switchStep_rx _ _ _ _ _ _ _ _ _ hsw]

theorem recordStep_rx (s s1 : Prog) (h : recordStep s = some s1) : s1.rx = s.rx := by
  unfold recordStep at h
  split at h
  · simp at h
  · split_ifs at h
    · exact decodeRecord_rx _ _ _ h
    · injection h with h; subst h; rfl

theorem parseLoop_rx (fuel : Nat) (s s1 : Prog) (h : parseLoop fuel s = some s1) :
    s1.rx = s.rx := by
  induction fuel generalizing s with
  | zero =>
    unfold parseLoop at h
    split_ifs at h
    injection h with h; subst h; rfl
  | succ n ih =>
    unfold parseLoop at h
    split_ifs at h
    · split at h
      · simp at h
      · rename_i s2 hs2
        rw [ih _ h, recordStep_rx _ _ hs2]
    · injection h with h; subst h; rfl

theorem loadStage_rx (s s1 : Prog) (h : loadStage s = some s1) : s1.rx = s.rx := by
  unfold loadStage at h
  split_ifs at h
  · split at h
    · simp at h
    · rename_i s2 hs2
      injection h with h; subst h
      have := parseLoop_rx _ _ _ hs2
      split_ifs <;> exact this
  · injection h with h; subst h; rfl

theorem validatePatch_rx (s : Prog) : (validatePatch s).rx = s.rx := by
  unfold validatePatch patchStage resetStage overlapStage
  split_ifs <;> rfl

/-- C9: for every state `s` of the variables after the reading of the file (line 214),
whatever the reading left in them: if `bOK` is false (format or checksum error) the
rest of the program leaves every variable and the port as they are; if validation fails
(overlap or reset vector) the program ends in the state after validation, whose bytes
written and replies pending are those of `s`; when the map holds 0x00 at address 0x800
and `bOK` is true, the program ends with the overlap diagnostic added and nothing else
changed.  And for every file whose reading gives `s`: nothing has been written and no
reply read when the reading ends, and a run rejected by the reading or by validation
ends with `bOK` false, no byte written and every reply unread. -/
theorem no_transmission_on_rejection (s : Prog) :
    (s.bOK = false →
      finishStage (transferStage (findStage (validatePatch s))) = s) ∧
    ((validatePatch s).bOK = false →
      finishStage (transferStage (findStage (validatePatch s))) = validatePatch s ∧
      (validatePatch s).tx = s.tx ∧ (validatePatch s).rx = s.rx) ∧
    (s.bOK = true → s.nMap 0x800 = 0x00 →
      finishStage (transferStage (findStage (validatePatch s)))
        = { s with bOK := false, log := s.log ++ [Msg.overlap] }) ∧
    (∀ (nAddrH0 : Nat) (file : List Char) (replies : List (Option Nat)),
      loadStage (start nAddrH0 file replies) = some s →
      s.tx = [] ∧ s.rx = replies ∧
      run nAddrH0 file replies
        = some (finishStage (transferStage (findStage (validatePatch s)))) ∧
      ((s.bOK = false ∨ (validatePatch s).bOK = false) →
        ∃ r, run nAddrH0 file replies = some r ∧ r.bOK = false ∧ r.tx = [] ∧
          r.rx = replies)) := by
  have hval : (validatePatch s).bOK = false →
      finishStage (transferStage (findStage (validatePatch s))) = validatePatch s :=
    fun hb => stages_not_ok _ hb
  refine ⟨?_, ?_, ?_, ?_⟩
  · intro hb
    rw [validatePatch_not_ok s hb]
    exact stages_not_ok s hb
  · intro hb
    exact ⟨hval hb, validatePatch_tx s, validatePatch_rx s⟩
  · intro hb h8
    have ho : overlapCheck s.nMap = false := by
      cases hc : overlapCheck s.nMap
      · rfl
      · have := (overlapCheck_iff s.nMap).1 hc 0x800 (by decide) (by decide)
        omega
    rw [validatePatch_overlap s hb ho]
    exact stages_not_ok _ rfl
  · intro nAddrH0 file replies hload
    have htx : s.tx = [] := loadStage_tx _ _ hload
    have hrx : s.rx = replies := loadStage_rx _ _ hload
    have hrun : run nAddrH0 file replies
        = some (finishStage (transferStage (findStage (validatePatch s)))) := by
      simp only [run, hload]
    refine ⟨htx, hrx, hrun, ?_⟩
    intro hrej
    have hb : (validatePatch s).bOK = false := by
      rcases hrej with h | h
      · rw [validatePatch_not_ok s h]; exact h
      · exact h
    exact ⟨validatePatch s, by rw [hrun, hval hb], hb, by rw [validatePatch_tx, htx],
      by rw [validatePatch_rx, hrx]⟩

theorem rejected_loads : (loadStage (start 0 rejectedFile [some 0x6B])).isSome = true := by
  decide

/-- C9, at a concrete input: `rejectedFile`, with a device that would answer. -/
theorem no_transmission_on_rejection_witness :
    (run 0 rejectedFile [some 0x6B]).map (fun r => (r.bOK, r.tx, r.rx, r.log))
      = some (false, [], [some 0x6B], [Msg.processed 4, Msg.overlap]) := by
  have h := no_transmission_on_rejection
    ((loadStage (start 0 rejectedFile [some 0x6B])).get rejected_loads)
  have h3 := h.2.2.1 (by decide) (by decide)
  have h4 := (h.2.2.2 0 rejectedFile [some 0x6B] (Option.some_get rejected_loads).symm).2.2.1
  rw [h4, h3]
  decide

/-! ## The code at inputs where a claim fails -/

/-- C5: the code at a failing input.  With `nAddrH = 1` the record `:02FFFF001122CD`
holds the bytes 0x11 and 0x22 for the addresses 0x1FFFF and 0x1FFFF + 1 = 0x20000, both
below 2^20; after it the map holds 0x11 at 0x1FFFF, but 0x20000 still holds 0xFF and
0x22 is at 0x10000, since the address is formed as `(nAddrH << 16) | nAddrL` after
`nAddrL` has gone past 0xFFFF. -/
theorem data_record_crossing_eval :
    (loadStage (start 0 crossingFile [])).map
        (fun s => (s.bOK, s.nAddrH, s.nMap 0x1FFFF, s.nMap 0x20000, s.nMap 0x10000))
      = some (true, 1, 0x11, 0xFF, 0x22) ∧
    (recordStep (start 1 ":02FFFF001122CD".toList [])).map
        (fun s => (s.bOK, s.nMap 0x1FFFF, s.nMap 0x20000, s.nMap 0x10000))
      = some (true, 0x11, 0xFF, 0x22) ∧
    ((1 <<< 16) ||| 0xFFFF) + 1 = 0x20000 ∧ 0x20000 < 2 ^ 20 := by
  decide


theorem accepted_loads : (loadStage (start 0 acceptedFile [])).isSome = true := by
  decide

theorem corrupted_loads : (loadStage (start 0 corruptedFile [])).isSome = true := by
  decide

theorem corrupted_image :
    ((loadStage (start 0 corruptedFile [])).get corrupted_loads).nMap
      = storeBytes erased 0 0 [0x00, 0x08, 0x04, 0x00, 0x00, 0x00, 0x00] := by
  rfl

theorem corrupted_validates :
    (validatePatch ((loadStage (start 0 corruptedFile [])).get corrupted_loads)).bOK = true := by
  rw [validatePatch_bOK _ (by decide), corrupted_image, Bool.and_eq_true, overlapCheck_iff]
  refine ⟨?_, by decide⟩
  intro a h1 h2
  have h0 : a ≠ 0 := by omega
  have h3 : a ≠ 1 := by omega
  have h4 : a ≠ 2 := by omega
  have h5 : a ≠ 3 := by omega
  have h6 : a ≠ 4 := by omega
  have h7 : a ≠ 5 := by omega
  have h8 : a ≠ 6 := by omega
  simp [storeBytes, setByte, erased, h0, h3, h4, h5, h6, h7, h8]

/-- C10: the code at a failing input.  `acceptedFile` is accepted; `corruptedFile`
differs from it in one character, the type byte of the third record (00 changed to
01), and is accepted too: the record is taken for the end of the file, its payload
byte 0xEE is read as the checksum and matches, three records are reported, address
0x1000 stays 0xFF, and validation passes. -/
theorem type_corruption_eval :
    (∃ s, loadStage (start 0 acceptedFile []) = some s ∧ s.bOK = true ∧
      s.log = [Msg.processed 4] ∧ s.nMap 0x1000 = 0xEE) ∧
    (∃ s, loadStage (start 0 corruptedFile []) = some s ∧ s.bOK = true ∧
      s.log = [Msg.processed 3] ∧ s.nMap 0x1000 = 0xFF ∧ (validatePatch s).bOK = true) ∧
    acceptedFile.length = corruptedFile.length ∧
    (List.zipWith (fun a b => if a = b then 0 else 1) acceptedFile corruptedFile).sum = 1 ∧
    acceptedFile[50]? = some '0' ∧ corruptedFile[50]? = some '1' := by
  refine ⟨⟨_, (Option.some_get accepted_loads).symm, by decide, by decide, by decide⟩,
    ⟨_, (Option.some_get corrupted_loads).symm, by decide, by decide, by decide,
      corrupted_validates⟩, by decide, by decide, by decide, by decide⟩


/-! ## The bound on the number of records -/

theorem scanColon_length (inp rest : List Char) (b : Bool)
    (h : scanColon inp = some (b, rest)) : rest.length < inp.length := by
  induction inp with
  | nil => simp [scanColon] at h
  | cons c cs ih =>
    unfold scanColon at h
    split_ifs at h
    · injection h with h; injection h with _ h2; subst h2; simp
    · have := ih h
      simp only [List.length_cons]; omega

theorem readField_length (k : Nat) (inp rest : List Char) (v : Nat)
    (h : readField k inp = some (v, rest)) : rest.length ≤ inp.length := by
  unfold readField at h
  split_ifs at h
  split at h
  · simp at h
  · injection h with h; injection h with _ h2; subst h2; simp

theorem dataLoop_length (k : Nat) (inp rest : List Char) (m m1 : Image)
    (nAddrH nAddrL ck ck1 : Nat)
    (h : dataLoop k inp m nAddrH nAddrL ck = some (m1, ck1, rest)) :
    rest.length ≤ inp.length := by
  induction k generalizing inp m nAddrL ck with
  | zero =>
    simp only [dataLoop] at h
    injection h with h; injection h with _ h; injection h with _ h; subst h; exact le_refl _
  | succ n ih =>
    unfold dataLoop at h
    split at h
    · simp at h
    · rename_i temp r1 hr
      have h1 := readField_length _ _ _ _ hr
      have h2 := ih _ _ _ _ h
      omega

theorem switchStep_length (s s1 : Prog) (nSize nAddrL nType ck ck1 : Nat)
    (inp r : List Char)
    (h : switchStep s nSize nAddrL nType ck inp = some (s1, ck1, r)) :
    r.length ≤ inp.length := by
  unfold switchStep at h
  split_ifs at h
  · split at h
    · simp at h
    · rename_i m ck2 rest hd
      injection h with h; injection h with _ h; injection h with _ h; subst h
      exact dataLoop_length _ _ _ _ _ _ _ _ _ hd
  · injection h with h; injection h with _ h; injection h with _ h; subst h; exact le_refl _
  · injection h with h; injection h with _ h; injection h with _ h; subst h; exact le_refl _
  · split at h
    · simp at h
    · rename_i v rest hr
      dsimp only at h
      injection h with h; injection h with _ h; injection h with _ h; subst h
      exact readField_length _ _ _ _ hr
  · injection h with h; injection h with _ h; injection h with _ h; subst h; exact le_refl _

theorem checkStep_length (s s1 : Prog) (ck : Nat) (inp : List Char)
    (h : checkStep s ck inp = some s1) : s1.hFile.length ≤ inp.length := by
  unfold checkStep at h
  split at h
  · simp at h
  · rename_i v rest hr
    have := readField_length _ _ _ _ hr
    dsimp only at h
    split at h <;> (injection h with h; subst h; exact this)

theorem decodeRecord_length (s s1 : Prog) (inp : List Char)
    (h : decodeRecord s inp = some s1) : s1.hFile.length ≤ inp.length := by
  unfold decodeRecord at h
  split at h
  · simp at h
  · rename_i _ r1 h1
    split at h
    · simp at h
    · rename_i _ r2 h2
      split at h
      · simp at h
      · rename_i _ r3 h3
        dsimp only at h
        split at h
        · simp at h
        · rename_i s2 ck r4 hsw
          have a1 := readField_length _ _ _ _ h1
          have a2 := readField_length _ _ _ _ h2
          have a3 := readField_length _ _ _ _ h3
          have a4 := switchStep_length _ _ _ _ _ _ _ _ _ hsw
          have a5 := checkStep_length _ _ _ _ h
          omega

theorem recordStep_length (s s1 : Prog) (h : recordStep s = some s1) :
    s1.hFile.length < s.hFile.length := by
  unfold recordStep at h
  split at h
  · simp at h
  · rename_i b rest hsc
    have h0 := scanColon_length _ _ _ hsc
    split_ifs at h
    · have := decodeRecord_length _ _ _ h
      omega
    · injection h with h; subst h; exact h0

theorem parseLoop_fuel_succ (fuel : Nat) (s : Prog) (h : s.hFile.length < fuel) :
    parseLoop (fuel + 1) s = parseLoop fuel s := by
  induction fuel generalizing s with
  | zero => omega
  | succ n ih =>
    rw [parseLoop, parseLoop]
    split_ifs
    · cases hr : recordStep s with
      | none => rfl
      | some s1 =>
        have := recordStep_length _ _ hr
        exact ih s1 (by omega)
    · rfl

/-- The bound on the number of records in `loadStage` is never reached: a larger one
gives the same result. -/
theorem parseLoop_fuel (k : Nat) (s : Prog) :
    parseLoop (s.hFile.length + 1 + k) s = parseLoop (s.hFile.length + 1) s := by
  induction k with
  | zero => rfl
  | succ k ih =>
    rw [← ih, ← Nat.add_assoc]
    exact parseLoop_fuel_succ _ s (by omega)


/-! ## Data records that stay within a 64 KiB block -/

theorem compose_low (H L : Nat) (hL : L < 65536) : (H <<< 16) ||| L = H * 65536 + L := by
  rw [Nat.shiftLeft_eq, Nat.mul_comm]
  exact (Nat.mul_add_lt_is_or (by simpa using hL) H).symm

/-- A data record that stays within its 64 KiB block (`nAddrL + n ≤ 0x10000`) and
below the fuse threshold stores byte `i` of its payload at `(nAddrH << 16) + nAddrL + i`
and leaves every other address as it was. -/
theorem storeBytes_within (bs : List Nat) (m : Image) (H L : Nat) (hH : H < 0x8000)
    (hL : L + bs.length ≤ 65536) :
    (∀ i, i < bs.length → storeBytes m H L bs (H * 65536 + L + i) = bs[i]?.getD 0 % 256) ∧
    (∀ a, (∀ i, i < bs.length → a ≠ H * 65536 + L + i) → storeBytes m H L bs a = m a) := by
  induction bs generalizing m L with
  | nil => exact ⟨fun i hi => by simp at hi, fun a _ => rfl⟩
  | cons b bs ih =>
    simp only [List.length_cons] at hL
    have hstep : storeBytes m H L (b :: bs)
        = storeBytes (setByte m (H * 65536 + L) b) H (L + 1) bs := by
      rw [storeBytes, if_pos hH, compose_low H L (by omega)]
    obtain ⟨ih1, ih2⟩ := ih (setByte m (H * 65536 + L) b) (L + 1) (by omega)
    rw [hstep]
    constructor
    · intro i hi
      cases i with
      | zero =>
        rw [ih2 _ (fun j _ => by omega)]
        simp [setByte]
      | succ i =>
        simp only [List.length_cons] at hi
        have := ih1 i (by omega)
        rw [show H * 65536 + L + (i + 1) = H * 65536 + (L + 1) + i by omega, this]
        simp
    · intro a ha
      rw [ih2 a (fun i hi => by
        have := ha (i + 1) (by simp only [List.length_cons]; omega)
        omega)]
      have := ha 0 (by simp)
      simp only [setByte]
      rw [if_neg (by omega)]


/-! ## The bound on the number of rounds -/

/-- Thirty rounds of fuel are enough whatever `nRetryCount` is on entry: more fuel
gives the same result. -/
theorem findLoop_fuel (fuel : Nat) (s : Prog) (h : 30 ≤ s.nRetryCount + fuel) :
    findLoop (fuel + 1) s = findLoop fuel s := by
  induction fuel generalizing s with
  | zero =>
    have hc : ¬ s.nRetryCount < 30 := by omega
    simp [findLoop, hc]
  | succ n ih =>
    have e1 : findLoop (n + 1 + 1) s
        = if s.nRetryCount < 30 && !s.bOK then findLoop (n + 1) (findRound s) else s := rfl
    have e2 : findLoop (n + 1) s
        = if s.nRetryCount < 30 && !s.bOK then findLoop n (findRound s) else s := rfl
    rw [e1, e2]
    split_ifs
    · exact ih (findRound s) (by rw [(findRound_frame s).2.1]; omega)
    · rfl


/-! ## Records of type 02 -/

theorem resetImage_above (a : Nat) (h : 7 ≤ a) : resetImage a = 0xFF := by
  have h0 : a ≠ 0 := by omega
  have h3 : a ≠ 1 := by omega
  have h4 : a ≠ 2 := by omega
  have h5 : a ≠ 3 := by omega
  have h6 : a ≠ 4 := by omega
  have h7 : a ≠ 5 := by omega
  have h8 : a ≠ 6 := by omega
  simp [resetImage, storeBytes, setByte, erased, h0, h3, h4, h5, h6, h7, h8]

theorem resetImage_validates (s : Prog) (hok : s.bOK = true) (hm : s.nMap = resetImage) :
    validatePatch s = { s with nMap := setByte resetImage 1 0x04 } := by
  have ho : overlapCheck s.nMap = true := by
    rw [hm, overlapCheck_iff]
    exact fun a h1 _ => resetImage_above a (by omega)
  have hr : resetCheck s.nMap = true := by rw [hm]; decide
  rw [validatePatch_pass s hok ho hr, hm]

theorem segment_loads : (loadStage (start 0 segmentFile [some 0x6B])).isSome = true := by
  decide

theorem segment_image :
    ((loadStage (start 0 segmentFile [some 0x6B])).get segment_loads).nMap = resetImage := by
  rfl

/-- C11: the code at a failing input.  The record `:00000002FE` (type 02, byte count
0, checksum correct) prints the extended segment diagnostic and sets `bOK` to false,
but the comparison of the checksum sets `bOK` to true again: the record alone leaves
`bOK` true and `bEOF` false, and the file `segmentFile` that holds it is read to its
end with four records reported, passes validation, and the search for the device
writes the keyphrase to the port. -/
theorem extended_segment_eval :
    (∃ s1, recordStep (start 0 ":00000002FE\n".toList []) = some s1 ∧ s1.bOK = true ∧
      s1.bEOF = false ∧ s1.log = [Msg.extendedSegment]) ∧
    (∃ s, loadStage (start 0 segmentFile [some 0x6B]) = some s ∧ s.bOK = true ∧
      s.log = [Msg.extendedSegment, Msg.processed 4] ∧
      (validatePatch s).bOK = true ∧
      (findStage (validatePatch s)).bOK = true ∧
      (findStage (validatePatch s)).tx = [0x33, 0x33, 0x46]) := by
  have hv := resetImage_validates _ (by decide) segment_image
  refine ⟨⟨_, (Option.some_get (by decide :
      (recordStep (start 0 ":00000002FE\n".toList [])).isSome = true)).symm,
      by decide, by decide, by decide⟩,
    ⟨_, (Option.some_get segment_loads).symm, by decide, by decide, ?_, ?_, ?_⟩⟩
  · rw [hv]; decide
  · rw [hv]; decide
  · rw [hv]; decide


/-! ## The page count -/

theorem maxAddr_fold (m : Image) (n : Nat) :
    ((List.range n).foldl (fun nMaxAddr i => if m i != 0xFF then i else nMaxAddr) 0 = 0 ∨
      ((List.range n).foldl (fun nMaxAddr i => if m i != 0xFF then i else nMaxAddr) 0 < n ∧
        m ((List.range n).foldl (fun nMaxAddr i => if m i != 0xFF then i else nMaxAddr) 0)
          ≠ 0xFF)) ∧
    (∀ i, i < n → m i ≠ 0xFF →
      i ≤ (List.range n).foldl (fun nMaxAddr i => if m i != 0xFF then i else nMaxAddr) 0) := by
  induction n with
  | zero => exact ⟨Or.inl rfl, fun i hi => absurd hi (Nat.not_lt_zero i)⟩
  | succ n ih =>
    rw [List.range_succ, List.foldl_append, List.foldl_cons, List.foldl_nil]
    obtain ⟨h1, h2⟩ := ih
    by_cases hn : m n = 0xFF
    · have hb : (m n != 0xFF) = false := by simp [hn]
      rw [hb]
      simp only [Bool.false_eq_true, if_false]
      refine ⟨?_, ?_⟩
      · rcases h1 with h1 | h1
        · exact Or.inl h1
        · exact Or.inr ⟨by omega, h1.2⟩
      · intro i hi hmi
        have : i ≠ n := fun e => hmi (e ▸ hn)
        exact h2 i (by omega) hmi
    · have hb : (m n != 0xFF) = true := by simp [hn]
      rw [hb]
      simp only [if_true]
      exact ⟨Or.inr ⟨by omega, hn⟩, fun i hi _ => by omega⟩

theorem maxAddr_spec (m : Image) :
    (maxAddr m = 0 ∨ (maxAddr m < 1048576 ∧ m (maxAddr m) ≠ 0xFF)) ∧
    (∀ i, i < 1048576 → m i ≠ 0xFF → i ≤ maxAddr m) :=
  maxAddr_fold m 1048576

theorem maxAddr_lt (m : Image) : maxAddr m < 1048576 := by
  rcases (maxAddr_spec m).1 with h | h
  · rw [h]; decide
  · exact h.1

theorem maxAddr_eq (m : Image) (a : Nat) (ha : a < 1048576) (hm : m a ≠ 0xFF)
    (habove : ∀ i, a < i → i < 1048576 → m i = 0xFF) : maxAddr m = a := by
  obtain ⟨h1, h2⟩ := maxAddr_spec m
  have hle := h2 a ha hm
  rcases h1 with h | h
  · omega
  · by_contra hne
    exact h.2 (habove _ (by omega) h.1)

theorem maxAddr_erased (m : Image) (h : ∀ i, i < 1048576 → m i = 0xFF) : maxAddr m = 0 := by
  rcases (maxAddr_spec m).1 with h1 | h1
  · exact h1
  · exact absurd (h _ h1.1) h1.2

/-- C15: with `bOK` true on entry the transfer uses the page count `maxAddr / 2048`,
in the header and as the bound of the loop over the pages; `maxAddr` is the highest
address below 2^20 whose byte is not 0xFF, and 0 when there is none; a map whose
highest such address is 4095 gives the page count 1; the page count is at most 511. -/
theorem page_count_exact (s : Prog) (hok : s.bOK = true) :
    transferStage s
      = pageLoop (maxAddr s.nMap / 2048) (headerStep s (maxAddr s.nMap / 2048)) 0 ∧
    (∀ a, a < 2 ^ 20 → s.nMap a ≠ 0xFF → (∀ i, a < i → i < 2 ^ 20 → s.nMap i = 0xFF) →
      maxAddr s.nMap = a) ∧
    ((∀ i, i < 2 ^ 20 → s.nMap i = 0xFF) → maxAddr s.nMap = 0) ∧
    (s.nMap 4095 ≠ 0xFF → (∀ i, 4095 < i → i < 2 ^ 20 → s.nMap i = 0xFF) →
      maxAddr s.nMap / 2048 = 1) ∧
    maxAddr s.nMap / 2048 ≤ 511 := by
  refine ⟨by simp only [transferStage, hok, if_true], ?_, ?_, ?_, ?_⟩
  · intro a ha hm hab
    exact maxAddr_eq s.nMap a ha hm hab
  · intro h
    exact maxAddr_erased s.nMap h
  · intro hm hab
    rw [maxAddr_eq s.nMap 4095 (by decide) hm hab]
  · have := maxAddr_lt s.nMap
    omega


/-! ## The end-to-end scenario -/

theorem six_loads : (loadStage (start 0 sixFile [])).isSome = true := by
  decide

theorem six_image :
    ((loadStage (start 0 sixFile [])).get six_loads).nMap
      = storeBytes erased 0 0 [0x00, 0x08, 0x04, 0x00, 0x00, 0x00] := by
  rfl

theorem six_rejected :
    validatePatch ((loadStage (start 0 sixFile [])).get six_loads)
      = { (loadStage (start 0 sixFile [])).get six_loads with
          bOK := false,
          log := ((loadStage (start 0 sixFile [])).get six_loads).log ++ [Msg.resetVector] } := by
  apply validatePatch_reset _ (by decide)
  · rw [six_image, overlapCheck_iff]
    intro a h1 _
    have h0 : a ≠ 0 := by omega
    have h3 : a ≠ 1 := by omega
    have h4 : a ≠ 2 := by omega
    have h5 : a ≠ 3 := by omega
    have h6 : a ≠ 4 := by omega
    have h7 : a ≠ 5 := by omega
    simp [storeBytes, setByte, erased, h0, h3, h4, h5, h6, h7]
  · rw [six_image]; decide

theorem seven_loads : (loadStage (start 0 sevenFile [])).isSome = true := by
  decide

theorem seven_image :
    ((loadStage (start 0 sevenFile [])).get seven_loads).nMap = resetImage := by
  rfl

theorem maxAddr_patched : maxAddr (setByte resetImage 1 0x04) = 6 := by
  apply maxAddr_eq _ 6 (by decide) (by decide)
  intro i h1 _
  have h : i ≠ 1 := by omega
  simp only [setByte, if_neg h]
  exact resetImage_above i (by omega)

/-- C12, as stated, fails: read with `nAddrH = 0`, the two-record file with the six
bytes `00 08 04 00 00 00` at address 0 does not pass validation and byte 1 is not
patched. -/
theorem six_byte_scenario_fails :
    ¬ ∃ s, loadStage (start 0 sixFile []) = some s ∧ (validatePatch s).bOK = true ∧
      (validatePatch s).nMap 1 = 0x04 := by
  rintro ⟨s, hs, hb, _⟩
  have e : s = (loadStage (start 0 sixFile [])).get six_loads := by
    apply Option.some.inj
    rw [← hs, Option.some_get]
  rw [e, six_rejected] at hb
  exact Bool.false_ne_true hb

/-- C12, amended: read with `nAddrH = 0`, the two-record file with the six bytes
`00 08 04 00 00 00` is read without error but fails the reset vector check, which
reads address 6 (still 0xFF), and byte 1 stays 0x08; with a seventh payload byte `00`
the file is read without error, passes validation, has byte 1 patched to 0x04, and
gives `maxAddr = 6` and the page count 0. -/
theorem end_to_end_scenario :
    (∃ s, loadStage (start 0 sixFile []) = some s ∧ s.bOK = true ∧
      s.log = [Msg.processed 2] ∧ s.nMap 6 = 0xFF ∧
      validatePatch s = { s with bOK := false, log := s.log ++ [Msg.resetVector] } ∧
      (validatePatch s).nMap 1 = 0x08) ∧
    (∃ s, loadStage (start 0 sevenFile []) = some s ∧ s.bOK = true ∧
      s.log = [Msg.processed 2] ∧
      (validatePatch s).bOK = true ∧ (validatePatch s).nMap 1 = 0x04 ∧
      maxAddr (validatePatch s).nMap = 6 ∧ maxAddr (validatePatch s).nMap / 2048 = 0) := by
  have hv := resetImage_validates _ (by decide) seven_image
  have h6 : maxAddr (validatePatch ((loadStage (start 0 sevenFile [])).get seven_loads)).nMap
      = 6 := by
    rw [hv]; exact maxAddr_patched
  refine ⟨⟨_, (Option.some_get six_loads).symm, by decide, by decide, by decide,
      six_rejected, ?_⟩,
    ⟨_, (Option.some_get seven_loads).symm, by decide, by decide, ?_, ?_, ?_, ?_⟩⟩
  · rw [six_rejected]; decide
  · rw [hv]; decide
  · rw [hv]; decide
  · exact h6
  · rw [h6]


/-! ## A reply that times out -/

theorem vector_loads :
    (loadStage (start 0 vectorFile [some 0x6B, none])).isSome = true := by
  decide

theorem vector_image :
    ((loadStage (start 0 vectorFile [some 0x6B, none])).get vector_loads).nMap
      = resetImage := by
  rfl

theorem transferStage_zero (s : Prog) (hok : s.bOK = true) (hm : maxAddr s.nMap / 2048 = 0) :
    transferStage s = headerStep s 0 := by
  simp only [transferStage, hok, if_true, hm, pageLoop]

/-- C13: the code at a failing input.  The file `vectorFile` gives `maxAddr = 6` and
the page count 0; the device answers `'k'` and then nothing.  The header `00 00 00` is
written, the read of the echo times out and leaves in `nData` the high byte 0 of the
page count, which equals the checksum 0: `bOK` stays true and the run ends with the
diagnostic of success. -/
theorem header_timeout_eval :
    (run 0 vectorFile [some 0x6B, none]).map (fun r => (r.bOK, r.tx, r.rx, r.log))
      = some (true, [0x33, 0x33, 0x46, 0x00, 0x00, 0x00], [],
          [Msg.processed 3, Msg.findOk, Msg.successful]) := by
  have hl : loadStage (start 0 vectorFile [some 0x6B, none])
      = some ((loadStage (start 0 vectorFile [some 0x6B, none])).get vector_loads) :=
    (Option.some_get vector_loads).symm
  have hv := resetImage_validates _ (by decide) vector_image
  have ht := transferStage_zero
    (findStage (validatePatch ((loadStage (start 0 vectorFile [some 0x6B, none])).get
      vector_loads)))
    (by rw [hv]; decide)
    (by
      have e : (findStage (validatePatch ((loadStage (start 0 vectorFile
          [some 0x6B, none])).get vector_loads))).nMap = setByte resetImage 1 0x04 := by
        rw [hv]; rfl
      rw [e, maxAddr_patched])
  rw [run, hl]
  dsimp only
  rw [ht, hv]
  decide


/-! ## The header -/

theorem pageLoop_not_ok (n : Nat) (s : Prog) (a : Nat) (h : s.bOK = false) :
    pageLoop n s a = s := by
  cases n <;> simp [pageLoop, h]

theorem findLoop_nMap (fuel : Nat) (s : Prog) : (findLoop fuel s).nMap = s.nMap := by
  induction fuel generalizing s with
  | zero => rfl
  | succ n ih =>
    rw [findLoop]
    split_ifs
    · rw [ih, (findRound_frame s).2.2.2.1]
    · rfl

theorem findStage_nMap (s : Prog) : (findStage s).nMap = s.nMap := by
  unfold findStage
  split_ifs
  · dsimp only
    split_ifs
    · exact findLoop_nMap 30 _
    · exact findLoop_nMap 30 _
  · rfl

/-- C14: with `bOK` true on entry the transfer first writes the three bytes
`n mod 256`, `(n / 256) mod 256` and their sum modulo 256, `n` being the page count
`maxAddr / 2048`, and after them only frames of pages; after a search for the device
that succeeded these three bytes follow the keyphrases, and after one that failed
nothing is written. -/
theorem header_frame_exact (s : Prog) (hok : s.bOK = true) :
    (∃ j, j ≤ maxAddr s.nMap / 2048 ∧
      (transferStage s).tx =
        s.tx ++ [(maxAddr s.nMap / 2048) % 256, (maxAddr s.nMap / 2048) / 256 % 256,
                 ((maxAddr s.nMap / 2048) % 256 + (maxAddr s.nMap / 2048) / 256 % 256) % 256]
          ++ (List.range j).flatMap (fun k => pageFrame s.nMap (pageAddr k))) ∧
    ((findStage s).bOK = true →
      ∃ j, (transferStage (findStage s)).tx =
        (findStage s).tx ++ [(maxAddr s.nMap / 2048) % 256, (maxAddr s.nMap / 2048) / 256 % 256,
                 ((maxAddr s.nMap / 2048) % 256 + (maxAddr s.nMap / 2048) / 256 % 256) % 256]
          ++ (List.range j).flatMap (fun k => pageFrame s.nMap (pageAddr k))) ∧
    ((findStage s).bOK = false → (transferStage (findStage s)).tx = (findStage s).tx) := by
  have key : ∀ t : Prog, t.bOK = true → ∃ j, j ≤ maxAddr t.nMap / 2048 ∧
      (transferStage t).tx =
        t.tx ++ [(maxAddr t.nMap / 2048) % 256, (maxAddr t.nMap / 2048) / 256 % 256,
                 ((maxAddr t.nMap / 2048) % 256 + (maxAddr t.nMap / 2048) / 256 % 256) % 256]
          ++ (List.range j).flatMap (fun k => pageFrame t.nMap (pageAddr k)) := by
    intro t ht
    obtain ⟨j, hj, htx, _, _⟩ :=
      pageLoop_tx (maxAddr t.nMap / 2048) (headerStep t (maxAddr t.nMap / 2048)) 0
    have h0 : pageAddr 0 = 0 := rfl
    rw [h0] at htx
    refine ⟨j, hj, ?_⟩
    simp only [transferStage, ht, if_true]
    rw [htx, (headerStep_frame _ _).1, (headerStep_frame _ _).2, List.range_eq_range',
      low_byte, high_byte]
  have hmap : (findStage s).nMap = s.nMap := findStage_nMap s
  refine ⟨key s hok, ?_, ?_⟩
  · intro h
    obtain ⟨j, _, hj⟩ := key (findStage s) h
    rw [hmap] at hj
    exact ⟨j, hj⟩
  · intro h
    simp only [transferStage, h]
    rfl

/-- C14, at a concrete input: the transfer of the image `vectorImage`. -/
theorem header_frame_exact_witness :
    ∃ j, j ≤ maxAddr vectorProg.nMap / 2048 ∧
      (transferStage vectorProg).tx =
        vectorProg.tx ++ [(maxAddr vectorProg.nMap / 2048) % 256,
                 (maxAddr vectorProg.nMap / 2048) / 256 % 256,
                 ((maxAddr vectorProg.nMap / 2048) % 256
                    + (maxAddr vectorProg.nMap / 2048) / 256 % 256) % 256]
          ++ (List.range j).flatMap (fun k => pageFrame vectorProg.nMap (pageAddr k)) :=
  (header_frame_exact vectorProg rfl).1


/-! ## Fuse data, unknown record types and the bounds of the map -/

theorem storeBytes_fuse (bs : List Nat) (m : Image) (H L : Nat) (hH : 0x8000 ≤ H) :
    storeBytes m H L bs = m := by
  induction bs generalizing L with
  | nil => rfl
  | cons b bs ih =>
    rw [storeBytes, if_neg (by omega)]
    exact ih (L + 1)

theorem data_record_step (s : Prog) (ws fn fa ft fp fc rest : List Char)
    (n A c : Nat) (p : List Nat)
    (hws : ∀ ch ∈ ws, ch.toNat = 10 ∨ ch.toNat = 13)
    (hn : fieldValue 2 fn = some n) (hA : fieldValue 4 fa = some A)
    (ht : fieldValue 2 ft = some 0) (hp : fieldBytes fp = some p) (hlen : p.length = n)
    (hc : fieldValue 2 fc = some c)
    (hfile : s.hFile = ws ++ ':' :: (fn ++ fa ++ ft ++ fp ++ fc ++ rest)) :
    ∃ K, (c = (256 - K) % 256 ↔ (n + A % 256 + A / 256 % 256 + 0 + p.sum + c) % 256 = 0) ∧
      readField 2 (fc ++ rest) = some (c, rest) ∧
      recordStep s = checkStep
        { s with nRecord := s.nRecord + 1, nMap := storeBytes s.nMap s.nAddrH A p }
        K (fc ++ rest) := by
  have hn1 := fieldValue_lt 2 fn n hn
  have hc1 := fieldValue_lt 2 fc c hc
  have hfile1 : s.hFile = ws ++ ':' :: (fn ++ (fa ++ (ft ++ (fp ++ (fc ++ rest))))) := by
    rw [hfile]; simp only [List.append_assoc]
  have hscan := scanColon_skip ws (fn ++ (fa ++ (ft ++ (fp ++ (fc ++ rest))))) hws
  have r1 := readField_append 2 fn (fa ++ (ft ++ (fp ++ (fc ++ rest)))) n hn
  have r2 := readField_append 4 fa (ft ++ (fp ++ (fc ++ rest))) A hA
  have r3 := readField_append 2 ft (fp ++ (fc ++ rest)) 0 ht
  have r4 := dataLoop_append fp (fc ++ rest) p s.nMap s.nAddrH A
    ((((n % 256 + (A &&& 0xff)) % 256 + ((A >>> 8) &&& 0xff)) % 256 + 0) % 256) hp
  have r5 := readField_append 2 fc rest c hc
  rw [hlen] at r4
  have hck := sumBytes_mod
    ((((n % 256 + (A &&& 0xff)) % 256 + ((A >>> 8) &&& 0xff)) % 256 + 0) % 256) p
  have hlt := sumBytes_lt
    ((((n % 256 + (A &&& 0xff)) % 256 + ((A >>> 8) &&& 0xff)) % 256 + 0) % 256) p
    (Nat.mod_lt _ (by decide))
  generalize hK : sumBytes
    ((((n % 256 + (A &&& 0xff)) % 256 + ((A >>> 8) &&& 0xff)) % 256 + 0) % 256) p = K
    at r4 hck hlt
  rw [low_byte, high_byte] at hck
  refine ⟨K, ?_, r5, ?_⟩
  · by_cases hz : K = 0
    · rw [hz] at hck ⊢
      simp only [Nat.sub_zero, Nat.mod_self]
      omega
    · have e : (256 - K) % 256 = 256 - K := Nat.mod_eq_of_lt (by omega)
      rw [e]
      omega
  · simp only [recordStep, hfile1, hscan, decodeRecord, r1, r2, r3, switchStep, r4,
      if_true]

/-- C16: a data record read while `nAddrH` is 0x8000 or more (count `n`, address
field `A`, payload `p` of `n` bytes, received checksum `c`) leaves the map, `nAddrH`
and `bEOF` as they were; the payload is read and summed all the same, `bOK` being true
after the record exactly when `(n + A mod 256 + A / 256 + 0 + sum p + c) mod 256 = 0`;
and when it is, nothing is printed: the record does not end the load. -/
theorem fuse_record_skipped (s : Prog) (ws fn fa ft fp fc rest : List Char)
    (n A c : Nat) (p : List Nat)
    (hfuse : 0x8000 ≤ s.nAddrH)
    (hws : ∀ ch ∈ ws, ch.toNat = 10 ∨ ch.toNat = 13)
    (hn : fieldValue 2 fn = some n) (hA : fieldValue 4 fa = some A)
    (ht : fieldValue 2 ft = some 0) (hp : fieldBytes fp = some p) (hlen : p.length = n)
    (hc : fieldValue 2 fc = some c)
    (hfile : s.hFile = ws ++ ':' :: (fn ++ fa ++ ft ++ fp ++ fc ++ rest)) :
    ∃ s1, recordStep s = some s1 ∧ s1.nMap = s.nMap ∧ s1.hFile = rest ∧
      s1.bEOF = s.bEOF ∧ s1.nAddrH = s.nAddrH ∧
      (s1.bOK = true ↔ (n + A % 256 + A / 256 % 256 + 0 + p.sum + c) % 256 = 0) ∧
      (s1.bOK = true → s1.log = s.log) ∧
      (s1.bOK = false → s1.log = s.log ++ [Msg.checksumError]) := by
  obtain ⟨K, hiff, r5, hrec⟩ :=
    data_record_step s ws fn fa ft fp fc rest n A c p hws hn hA ht hp hlen hc hfile
  rw [storeBytes_fuse p s.nMap s.nAddrH A hfuse] at hrec
  by_cases hacc : c = (256 - K) % 256
  · refine ⟨{ s with nRecord := s.nRecord + 1, bOK := true, nChecksum := (256 - K) % 256,
                      hFile := rest },
      by rw [hrec]; simp only [checkStep, r5]; rw [if_pos (by simpa using hacc)],
      rfl, rfl, rfl, rfl, ?_, ?_, ?_⟩
    · simp only [true_iff]; exact hiff.1 hacc
    · intro _; rfl
    · intro h; simp at h
  · refine ⟨{ s with nRecord := s.nRecord + 1, bOK := false, nChecksum := (256 - K) % 256,
                      hFile := rest, log := s.log ++ [Msg.checksumError] },
      by rw [hrec]; simp only [checkStep, r5]; rw [if_neg (by simpa using hacc)],
      rfl, rfl, rfl, rfl, ?_, ?_, ?_⟩
    · simp only [Bool.false_eq_true, false_iff]; exact fun h => hacc (hiff.2 h)
    · intro h; simp at h
    · intro _; rfl

/-- C16, at a concrete input: the record `:01100000EE01` read with `nAddrH = 0x8000`. -/
theorem fuse_record_skipped_witness :
    ∃ s1, recordStep (start 0x8000 ":01100000EE01".toList []) = some s1 ∧
      s1.nMap = (start 0x8000 ":01100000EE01".toList []).nMap ∧ s1.hFile = [] ∧
      s1.bEOF = false ∧ s1.nAddrH = 0x8000 ∧
      (s1.bOK = true ↔ (1 + 0x1000 % 256 + 0x1000 / 256 % 256 + 0 + [0xEE].sum + 1) % 256 = 0) ∧
      (s1.bOK = true → s1.log = []) ∧
      (s1.bOK = false → s1.log = [] ++ [Msg.checksumError]) :=
  fuse_record_skipped (start 0x8000 ":01100000EE01".toList []) [] "01".toList "1000".toList
    "00".toList "EE".toList "01".toList [] 1 0x1000 1 [0xEE] (by decide) (by simp)
    (by decide) (by decide) (by decide) (by decide) rfl (by decide) (by decide)

/-- C17: the code at a failing input.  The record `:0400000500000800EF` has a type
that is none of 0, 1, 2, 4 and a checksum that is correct for the whole record; the
code takes it for the end of the file but reads the checksum right after the type
field, where the first payload byte `00` stands, and `256 - (04 + 05) = F7` differs
from it: the checksum diagnostic is printed, `bOK` is false and the load of
`startLinearFile` fails at its third record. -/
theorem unknown_type_payload_eval :
    (∃ s1, recordStep (start 0 ":0400000500000800EF\n".toList []) = some s1 ∧
      s1.bOK = false ∧ s1.bEOF = true ∧ s1.log = [Msg.checksumError] ∧
      s1.hFile = "000800EF\n".toList) ∧
    (4 + 0 + 0 + 5 + (0x00 + 0x00 + 0x08 + 0x00) + 0xEF) % 256 = 0 ∧
    (∃ s, loadStage (start 0 startLinearFile []) = some s ∧ s.bOK = false ∧
      s.log = [Msg.checksumError] ∧ s.nRecord = 3) := by
  refine ⟨⟨_, (Option.some_get (by decide :
      (recordStep (start 0 ":0400000500000800EF\n".toList [])).isSome = true)).symm,
      by decide, by decide, by decide, by decide⟩, by decide,
    ⟨_, (Option.some_get (by decide :
      (loadStage (start 0 startLinearFile [])).isSome = true)).symm,
      by decide, by decide, by decide⟩⟩

/-- C20: the code at a failing input.  The file `beyondFile` sets `nAddrH = 0x0010`,
which is below the threshold 0x8000, and its data record stores the byte `00` at
address `(0x0010 << 16) | 0 = 0x100000 = 2^20`, past the last cell of the map. -/
theorem write_beyond_map_eval :
    ∃ s, loadStage (start 0 beyondFile []) = some s ∧ s.bOK = true ∧
      s.log = [Msg.processed 3] ∧ s.nAddrH = 0x0010 ∧ 0x0010 < 0x8000 ∧
      s.nMap 0x100000 = 0x00 ∧ erased 0x100000 = 0xFF ∧ ¬ (0x100000 < 2 ^ 20) := by
  refine ⟨_, (Option.some_get (by decide :
      (loadStage (start 0 beyondFile [])).isSome = true)).symm,
      by decide, by decide, by decide, by decide, by decide, by decide, by decide⟩


/-! ## The replies of the device during the transfer -/

theorem pageData_head (s : Prog) (a : Nat) :
    (pageData (pageAddress s a) a).1.nChecksum = frameSum s.nMap a ∧
    (pageData (pageAddress s a) a).1.rx = s.rx ∧
    (pageData (pageAddress s a) a).1.bOK = s.bOK ∧
    (pageData (pageAddress s a) a).2 = a + 2048 := by
  have hs := sumBytes_mod
    (((((a >>> 1) &&& 0xff) + ((a >>> 9) &&& 0xff)) % 256 + ((a >>> 17) &&& 0xff)) % 256)
    (pageBytes s.nMap a)
  have hl := sumBytes_lt
    (((((a >>> 1) &&& 0xff) + ((a >>> 9) &&& 0xff)) % 256 + ((a >>> 17) &&& 0xff)) % 256)
    (pageBytes s.nMap a) (Nat.mod_lt _ (by decide))
  rw [Nat.mod_eq_of_lt hl] at hs
  have hsum : (addressBytes a).sum
      = ((a >>> 1) &&& 0xff) + (((a >>> 9) &&& 0xff) + ((a >>> 17) &&& 0xff)) := by
    simp [addressBytes]
  have hp := pageAddress_frame s a
  rw [pageData_eq]
  refine ⟨?_, hp.2.2.2.2.2, hp.2.2.2.1, rfl⟩
  dsimp only
  rw [hp.2.1, hp.2.2.1, hs, frameSum, hsum]
  omega

theorem echoCheck_reply (t : Prog) (n e : Nat) (rest : List (Option Nat))
    (h : t.rx = some e :: rest) :
    (echoCheck t n).rx = rest ∧
    (e ≠ t.nChecksum → (echoCheck t n).bOK = false) ∧
    (e = t.nChecksum → (echoCheck t n).bOK = t.bOK) := by
  unfold echoCheck readPort writePort
  simp only [h]
  refine ⟨?_, ?_, ?_⟩
  · split_ifs <;> rfl
  · intro hne
    rw [if_pos (by simpa using hne)]
  · intro he
    rw [if_neg (by simpa using he)]

theorem echoCheck_rx (t : Prog) (n : Nat) : (echoCheck t n).rx = t.rx.tail := by
  unfold echoCheck readPort writePort
  rcases h : t.rx with _ | ⟨_ | b, rs⟩ <;> simp only [h] <;> split_ifs <;> rfl

theorem doneCheck_reply (t : Prog) (n d : Nat) (rest : List (Option Nat))
    (h : t.rx = some d :: rest) :
    (doneCheck t n).rx = rest ∧
    (d ≠ 0x64 → (doneCheck t n).bOK = false) ∧
    (d = 0x64 → (doneCheck t n).bOK = t.bOK) := by
  unfold doneCheck readPort
  simp only [h]
  refine ⟨?_, ?_, ?_⟩
  · split_ifs <;> rfl
  · intro hne
    rw [if_pos (by simpa using hne)]
  · intro he
    rw [if_neg (by simpa using he)]

theorem doneCheck_bOK_false (t : Prog) (n : Nat) (ht : t.bOK = false) :
    (doneCheck t n).bOK = false := by
  unfold doneCheck
  dsimp only
  split_ifs
  · rfl
  · rw [(readPort_frame _).2.2.2.1]; exact ht

theorem pageStep_echo_differs (s : Prog) (a e : Nat) (rest : List (Option Nat))
    (h : s.rx = some e :: rest) (hne : e ≠ frameSum s.nMap a) :
    (pageStep s a).1.bOK = false := by
  obtain ⟨h1, h2, _, _⟩ := pageData_head s a
  unfold pageStep
  dsimp only
  apply doneCheck_bOK_false
  exact (echoCheck_reply _ _ e rest (by rw [h2, h])).2.1 (by rw [h1]; exact hne)

theorem pageStep_done_differs (s : Prog) (a d : Nat) (x : Option Nat)
    (rest : List (Option Nat)) (h : s.rx = x :: some d :: rest) (hne : d ≠ 0x64) :
    (pageStep s a).1.bOK = false := by
  obtain ⟨_, h2, _, _⟩ := pageData_head s a
  unfold pageStep
  dsimp only
  refine (doneCheck_reply _ _ d rest ?_).2.1 hne
  rw [echoCheck_rx, h2, h]
  rfl

theorem pageStep_good (s : Prog) (a : Nat) (rest : List (Option Nat))
    (h : s.rx = some (frameSum s.nMap a) :: some 0x64 :: rest) :
    (pageStep s a).1.bOK = s.bOK ∧ (pageStep s a).1.rx = rest := by
  obtain ⟨h1, h2, h3, _⟩ := pageData_head s a
  have he := echoCheck_reply (pageData (pageAddress s a) a).1
    (pageData (pageAddress s a) a).2 (frameSum s.nMap a) (some 0x64 :: rest) (by rw [h2, h])
  have hd := doneCheck_reply
    (echoCheck (pageData (pageAddress s a) a).1 (pageData (pageAddress s a) a).2)
    (skipBootloader (pageData (pageAddress s a) a).2) 0x64 rest he.1
  unfold pageStep
  dsimp only
  exact ⟨by rw [hd.2.2 rfl, he.2.2 h1.symm, h3], hd.1⟩

theorem pageLoop_stops (togo : Nat) (s : Prog) (a : Nat) (hok : s.bOK = true)
    (h : (pageStep s a).1.bOK = false) :
    pageLoop (togo + 1) s a = (pageStep s a).1 := by
  rw [pageLoop, if_pos hok]
  exact pageLoop_not_ok _ _ _ h

theorem headerStep_reply (s : Prog) (n b : Nat) (rest : List (Option Nat))
    (h : s.rx = some b :: rest) :
    (headerStep s n).rx = rest ∧
    (b ≠ (n % 256 + n / 256 % 256) % 256 → (headerStep s n).bOK = false) ∧
    (b = (n % 256 + n / 256 % 256) % 256 → (headerStep s n).bOK = s.bOK) := by
  unfold headerStep readPort writePort
  simp only [h, low_byte, Nat.shiftRight_eq_div_pow, Nat.reducePow]
  refine ⟨?_, ?_, ?_⟩
  · split_ifs <;> rfl
  · intro hne
    rw [if_pos (bne_iff_ne.mpr hne)]
  · intro he
    rw [if_neg (by rw [bne_iff_ne]; exact not_not.mpr he)]


/-! ## A transfer that fails -/

/-- C18: with `bOK` true on entry: when the byte echoed after the header differs from
the header checksum, the transfer ends with `bOK` false having written the three
header bytes only; and when, at the start of a page at address `a` with pages still to
go, the byte echoed after the page differs from the checksum of its frame, or the byte
read next differs from `'d'`, the loop over the pages ends after this page with `bOK`
false, having written just the frame of this page, whose last byte is the checksum;
nothing is printed or written afterwards. -/
theorem fail_fast (s : Prog) (hok : s.bOK = true) :
    (∀ b rest, s.rx = some b :: rest →
      b ≠ ((maxAddr s.nMap / 2048) % 256 + (maxAddr s.nMap / 2048) / 256 % 256) % 256 →
      (transferStage s).bOK = false ∧
      (transferStage s).tx = s.tx ++
        [(maxAddr s.nMap / 2048) % 256, (maxAddr s.nMap / 2048) / 256 % 256,
         ((maxAddr s.nMap / 2048) % 256 + (maxAddr s.nMap / 2048) / 256 % 256) % 256] ∧
      finishStage (transferStage s) = transferStage s) ∧
    (∀ a togo e rest, s.rx = some e :: rest → e ≠ frameSum s.nMap a →
      (pageLoop (togo + 1) s a).bOK = false ∧
      (pageLoop (togo + 1) s a).tx = s.tx ++ pageFrame s.nMap a ∧
      finishStage (pageLoop (togo + 1) s a) = pageLoop (togo + 1) s a) ∧
    (∀ a togo x d rest, s.rx = x :: some d :: rest → d ≠ 0x64 →
      (pageLoop (togo + 1) s a).bOK = false ∧
      (pageLoop (togo + 1) s a).tx = s.tx ++ pageFrame s.nMap a ∧
      finishStage (pageLoop (togo + 1) s a) = pageLoop (togo + 1) s a) ∧
    (∀ a, pageFrame s.nMap a = addressBytes a ++ pageBytes s.nMap a ++ [frameSum s.nMap a]) := by
  have hfin : ∀ t : Prog, t.bOK = false → finishStage t = t := by
    intro t ht
    simp [finishStage, ht]
  have hpage : ∀ a togo, (pageStep s a).1.bOK = false →
      (pageLoop (togo + 1) s a).bOK = false ∧
      (pageLoop (togo + 1) s a).tx = s.tx ++ pageFrame s.nMap a ∧
      finishStage (pageLoop (togo + 1) s a) = pageLoop (togo + 1) s a := by
    intro a togo h
    rw [pageLoop_stops togo s a hok h]
    exact ⟨h, pageStep_tx s a, hfin _ h⟩
  refine ⟨?_, ?_, ?_, fun _ => rfl⟩
  · intro b rest hrx hne
    have hb := (headerStep_reply s (maxAddr s.nMap / 2048) b rest hrx).2.1 hne
    have ht : transferStage s = headerStep s (maxAddr s.nMap / 2048) := by
      simp only [transferStage, hok, if_true]
      exact pageLoop_not_ok _ _ _ hb
    rw [ht]
    refine ⟨hb, ?_, hfin _ hb⟩
    rw [(headerStep_frame _ _).1, low_byte, high_byte]
  · intro a togo e rest hrx hne
    exact hpage a togo (pageStep_echo_differs s a e rest hrx hne)
  · intro a togo x d rest hrx hne
    exact hpage a togo (pageStep_done_differs s a d x rest hrx hne)

/-- C18, at a concrete input: the first of two pages of `vectorImage`, answered with
the status byte 0x00. -/
theorem fail_fast_witness :
    (pageLoop (1 + 1) { vectorProg with rx := [some 0x00, some 0x00] } 0).bOK = false ∧
    (pageLoop (1 + 1) { vectorProg with rx := [some 0x00, some 0x00] } 0).tx
      = [] ++ pageFrame vectorImage 0 :=
  ⟨((fail_fast { vectorProg with rx := [some 0x00, some 0x00] } rfl).2.2.1
      0 1 (some 0x00) 0x00 [] rfl (by decide)).1,
   ((fail_fast { vectorProg with rx := [some 0x00, some 0x00] } rfl).2.2.1
      0 1 (some 0x00) 0x00 [] rfl (by decide)).2.1⟩


/-! ## A transfer that succeeds -/

theorem pageLoop_good (n : Nat) (k : Nat) (s : Prog) (rest : List (Option Nat))
    (hok : s.bOK = true) (hrx : s.rx = pageReplies s.nMap k n ++ rest) :
    (pageLoop n s (pageAddr k)).bOK = true ∧ (pageLoop n s (pageAddr k)).rx = rest := by
  induction n generalizing s k with
  | zero => exact ⟨hok, by simpa [pageReplies] using hrx⟩
  | succ n ih =>
    have hg := pageStep_good s (pageAddr k) (pageReplies s.nMap (k + 1) n ++ rest)
      (by rw [hrx]; rfl)
    have hstep : pageLoop (n + 1) s (pageAddr k)
        = pageLoop n (pageStep s (pageAddr k)).1 (pageAddr (k + 1)) := by
      rw [pageLoop, if_pos hok, pageStep_next, pageAddr_next]
    rw [hstep]
    exact ih (k + 1) (pageStep s (pageAddr k)).1 (by rw [hg.1, hok])
      (by rw [hg.2, pageStep_nMap])

theorem header_pages_good (s : Prog) (n : Nat) (rest : List (Option Nat))
    (hok : s.bOK = true) (hrx : s.rx = goodReplies s.nMap n ++ rest) :
    (pageLoop n (headerStep s n) 0).bOK = true ∧
    (pageLoop n (headerStep s n) 0).rx = rest := by
  have hh := headerStep_reply s n ((n % 256 + n / 256 % 256) % 256)
    (pageReplies s.nMap 0 n ++ rest) (by rw [hrx]; rfl)
  have h0 : pageAddr 0 = 0 := rfl
  have hg := pageLoop_good n 0 (headerStep s n) rest (by rw [hh.2.2 rfl, hok])
    (by rw [hh.1, (headerStep_frame _ _).2])
  rw [h0] at hg
  exact hg

theorem transfer_good (s : Prog) (rest : List (Option Nat)) (hok : s.bOK = true)
    (hrx : s.rx = goodReplies s.nMap (maxAddr s.nMap / 2048) ++ rest) :
    (transferStage s).bOK = true ∧ (transferStage s).rx = rest := by
  have h := header_pages_good s (maxAddr s.nMap / 2048) rest hok hrx
  have e : transferStage s
      = pageLoop (maxAddr s.nMap / 2048) (headerStep s (maxAddr s.nMap / 2048)) 0 := by
    simp only [transferStage, hok, if_true]
  rw [e]
  exact h

theorem covered (M n a : Nat) (hn : n = M / 2048) (hM : 4096 ≤ M) (ha : a ≤ M)
    (hout : ¬ (2048 ≤ a ∧ a ≤ 4095)) (h4 : a % 4 ≠ 3) :
    ∃ k i, k < n ∧ i < 2048 ∧ i % 4 ≠ 3 ∧ pageAddr k + i = a ∧
      pageAddr k = 2048 * (a / 2048) ∧
      ∀ k1 i1, k1 < n → i1 < 2048 → pageAddr k1 + i1 = a → k1 = k ∧ i1 = i := by
  by_cases hlow : a < 2048
  · refine ⟨0, a, by omega, hlow, h4, by simp [pageAddr], by simp [pageAddr]; omega, ?_⟩
    intro k1 i1 _ hi1 he
    unfold pageAddr at he
    split_ifs at he <;> omega
  · refine ⟨a / 2048 - 1, a % 2048, by omega, by omega, by omega, ?_, ?_, ?_⟩
    · unfold pageAddr
      split_ifs <;> omega
    · unfold pageAddr
      split_ifs <;> omega
    · intro k1 i1 _ hi1 he
      unfold pageAddr at he
      split_ifs at he <;> omega

/-- C19: for a map that passes the overlap check and has a page count
`n = maxAddr / 2048` of at least 1, with a device that echoes every checksum and
answers `'d'` after every page: the transfer ends with `bOK` true and has written the
header and the frames of the pages 0 to `n - 1`; every address `a` up to `maxAddr`,
outside 2048..4095 and with `a mod 4` other than 3, is `pageAddr k + i` for exactly one
page `k < n` and offset `i < 2048`, that page starts at `2048 * (a / 2048)`, and the
byte of the map at `a` is among its data bytes; so every byte other than 0xFF at an
address with `a mod 4` other than 3 is sent. -/
theorem transfer_coverage (s : Prog) (rest : List (Option Nat)) (hok : s.bOK = true)
    (hov : overlapCheck s.nMap = true) (hn : 1 ≤ maxAddr s.nMap / 2048)
    (hrx : s.rx = goodReplies s.nMap (maxAddr s.nMap / 2048) ++ rest) :
    (transferStage s).bOK = true ∧
    (transferStage s).tx =
      s.tx ++ [(maxAddr s.nMap / 2048) % 256, (maxAddr s.nMap / 2048) / 256 % 256,
               ((maxAddr s.nMap / 2048) % 256 + (maxAddr s.nMap / 2048) / 256 % 256) % 256]
        ++ (List.range (maxAddr s.nMap / 2048)).flatMap
            (fun k => pageFrame s.nMap (pageAddr k)) ∧
    (∀ a, a ≤ maxAddr s.nMap → ¬ (2048 ≤ a ∧ a ≤ 4095) → a % 4 ≠ 3 →
      ∃ k i, k < maxAddr s.nMap / 2048 ∧ i < 2048 ∧ i % 4 ≠ 3 ∧ pageAddr k + i = a ∧
        pageAddr k = 2048 * (a / 2048) ∧
        s.nMap a ∈ pageBytes s.nMap (pageAddr k) ∧
        ∀ k1 i1, k1 < maxAddr s.nMap / 2048 → i1 < 2048 → pageAddr k1 + i1 = a →
          k1 = k ∧ i1 = i) ∧
    (∀ a, a < 2 ^ 20 → s.nMap a ≠ 0xFF → a % 4 ≠ 3 →
      ∃ k, k < maxAddr s.nMap / 2048 ∧ s.nMap a ∈ pageBytes s.nMap (pageAddr k)) := by
  obtain ⟨hb, _⟩ := transfer_good s rest hok hrx
  have hM : 4096 ≤ maxAddr s.nMap := by
    rcases (maxAddr_spec s.nMap).1 with h | h
    · rw [h] at hn; omega
    · by_contra hlt
      exact h.2 ((overlapCheck_iff s.nMap).1 hov _ (by omega) (by omega))
  have hcov : ∀ a, a ≤ maxAddr s.nMap → ¬ (2048 ≤ a ∧ a ≤ 4095) → a % 4 ≠ 3 →
      ∃ k i, k < maxAddr s.nMap / 2048 ∧ i < 2048 ∧ i % 4 ≠ 3 ∧ pageAddr k + i = a ∧
        pageAddr k = 2048 * (a / 2048) ∧
        s.nMap a ∈ pageBytes s.nMap (pageAddr k) ∧
        ∀ k1 i1, k1 < maxAddr s.nMap / 2048 → i1 < 2048 → pageAddr k1 + i1 = a →
          k1 = k ∧ i1 = i := by
    intro a ha hout h4
    obtain ⟨k, i, hk, hi, hi4, he, hp, hu⟩ :=
      covered (maxAddr s.nMap) (maxAddr s.nMap / 2048) a rfl hM ha hout h4
    refine ⟨k, i, hk, hi, hi4, he, hp, ?_, hu⟩
    rw [pageBytes, List.mem_map]
    exact ⟨i, by simp [List.mem_filter, hi, hi4], by rw [he]⟩
  refine ⟨hb, ?_, hcov, ?_⟩
  · obtain ⟨j, _, htx, _, hall⟩ :=
      pageLoop_tx (maxAddr s.nMap / 2048) (headerStep s (maxAddr s.nMap / 2048)) 0
    have h0 : pageAddr 0 = 0 := rfl
    rw [h0] at htx hall
    have hb1 := hb
    simp only [transferStage, hok, if_true] at hb1 ⊢
    rw [htx, (headerStep_frame _ _).1, (headerStep_frame _ _).2, List.range_eq_range',
      low_byte, high_byte, hall hb1]
  · intro a ha hne h4
    have hle := (maxAddr_spec s.nMap).2 a ha hne
    have hout : ¬ (2048 ≤ a ∧ a ≤ 4095) := by
      intro h
      exact hne ((overlapCheck_iff s.nMap).1 hov a h.1 h.2)
    obtain ⟨k, _, hk, _, _, _, _, hmem, _⟩ := hcov a hle hout h4
    exact ⟨k, hk, hmem⟩

theorem overlapCheck_twoPage : overlapCheck twoPageImage = true := by
  rw [overlapCheck_iff]
  intro a h1 h2
  have h0 : a ≠ 0 := by omega
  have h3 : a ≠ 1 := by omega
  have h4 : a ≠ 2 := by omega
  have h5 : a ≠ 4 := by omega
  have h6 : a ≠ 5 := by omega
  have h7 : a ≠ 6 := by omega
  have h8 : a ≠ 0x1000 := by omega
  simp [twoPageImage, vectorImage, h0, h3, h4, h5, h6, h7, h8]

theorem maxAddr_twoPage : maxAddr twoPageImage = 0x1000 := by
  apply maxAddr_eq _ _ (by decide) (by decide)
  intro a h1 _
  have h0 : a ≠ 0 := by omega
  have h3 : a ≠ 1 := by omega
  have h4 : a ≠ 2 := by omega
  have h5 : a ≠ 4 := by omega
  have h6 : a ≠ 5 := by omega
  have h7 : a ≠ 6 := by omega
  have h8 : a ≠ 0x1000 := by omega
  simp [twoPageImage, vectorImage, h0, h3, h4, h5, h6, h7, h8]

/-- C19, at a concrete input: the transfer of `twoPageImage`, whose page count is 2. -/
theorem transfer_coverage_witness :
    (transferStage twoPageProg).bOK = true ∧
    (∃ k i, k < 4096 / 2048 ∧ i < 2048 ∧ i % 4 ≠ 3 ∧ pageAddr k + i = 0x1000 ∧
      pageAddr k = 2048 * (0x1000 / 2048)) ∧
    (∃ k, k < 4096 / 2048 ∧ twoPageProg.nMap 0x1000 ∈ pageBytes twoPageProg.nMap (pageAddr k)) := by
  have hm : maxAddr twoPageProg.nMap = 4096 := maxAddr_twoPage
  have h := transfer_coverage twoPageProg [] rfl overlapCheck_twoPage
    (by rw [hm]; decide)
    (by rw [hm, List.append_nil]; rfl)
  rw [hm] at h
  obtain ⟨k, i, h1, h2, h3, h4, h5, _⟩ := h.2.2.1 0x1000 (by decide) (by decide) (by decide)
  exact ⟨h.1, ⟨k, i, h1, h2, h3, h4, h5⟩,
    h.2.2.2 0x1000 (by decide) (by decide) (by decide)⟩

/-- C15, at a concrete input: a map whose only byte other than 0xFF is at address
4095. -/
theorem page_count_exact_witness :
    maxAddr lastByteProg.nMap = 4095 ∧ maxAddr lastByteProg.nMap / 2048 = 1 ∧
    maxAddr lastByteProg.nMap / 2048 ≤ 511 := by
  have habove : ∀ i, 4095 < i → i < 2 ^ 20 → lastByteProg.nMap i = 0xFF := by
    intro i h1 _
    have h : i ≠ 4095 := by omega
    simp [lastByteProg, setByte, erased, h]
  have h := page_count_exact lastByteProg rfl
  exact ⟨h.2.1 4095 (by decide) (by decide) habove, h.2.2.2.1 (by decide) habove, h.2.2.2.2⟩

/-! ## The pages of a transfer with two pages -/

/-- C7, at a concrete input: the transfer of `twoPageImage` with a device that echoes
every checksum and answers `'d'`: the page count is 2, and after the header the
frames of page 0 at address 0 and of page 1 at address 4096 are written. -/
theorem page_addressing_witness :
    (transferStage twoPageProg).bOK = true ∧
    maxAddr twoPageProg.nMap / 2048 = 2 ∧
    (transferStage twoPageProg).tx =
      [0x02, 0x00, 0x02] ++ pageFrame twoPageImage 0 ++ pageFrame twoPageImage 4096 ∧
    pageAddr 0 = 0 ∧ pageAddr 1 = 2048 * (1 + 1) ∧
    addressBytes (pageAddr 1) = [0x00, 0x08, 0x00] ∧
    (∀ i, i < 2048 → ¬ (2048 ≤ pageAddr 0 + i ∧ pageAddr 0 + i ≤ 4095)) ∧
    (∀ i, i < 2048 → ¬ (2048 ≤ pageAddr 1 + i ∧ pageAddr 1 + i ≤ 4095)) := by
  have hm : maxAddr twoPageProg.nMap = 4096 := maxAddr_twoPage
  have hn : maxAddr twoPageProg.nMap / 2048 = 2 := by rw [hm]
  have hgood := transfer_good twoPageProg [] rfl
    (by rw [hn, List.append_nil]; rfl)
  have h := page_addressing twoPageProg rfl
  obtain ⟨j, _, htx, hall⟩ := h.1
  have hj : j = 2 := by rw [hall hgood.1, hn]
  have e0 : twoPageProg.tx = [] := rfl
  have e1 : twoPageProg.nMap = twoPageImage := rfl
  have p0 : pageAddr 0 = 0 := rfl
  have p1 : pageAddr 1 = 4096 := by decide
  have hdr : [(2 : Nat) &&& 0xff, (2 >>> 8) &&& 0xff, ((2 &&& 0xff) + ((2 >>> 8) &&& 0xff)) % 256]
      = [0x02, 0x00, 0x02] := by decide
  rw [hj, hn, hdr, e0, e1] at htx
  refine ⟨hgood.1, hn, ?_, rfl, by decide, by decide, fun i hi => h.2.2.2 0 i hi,
    fun i hi => h.2.2.2 1 i hi⟩
  rw [htx]
  simp only [List.range_succ, List.range_zero, List.nil_append, List.flatMap_append,
    List.flatMap_cons, List.flatMap_nil, List.append_nil, p0, p1, List.append_assoc]

end Loader
